import Mathlib

/-!
Verification development for the hp_node_stream market-data service.

The Rust sources are shallowly embedded:
* `f64` prices and sizes are modelled as `ℚ` (the parser rejects NaN and
  infinities before values reach the books, and every operation used on
  them — comparison, negation, addition, min — agrees with the rational
  order on finite doubles); where NaN/infinity matters (the order parser)
  an explicit `F64` domain with IEEE comparison semantics is used.
* `BTreeMap` is modelled as a key-sorted association list, `HashMap` as an
  association list with first-match lookup and replace-on-insert, and the
  binary search over a sorted `Vec` of price levels as ordered traversal
  (they coincide on the sorted, duplicate-free lists the code maintains).
* Atomics and locks disappear: each method becomes a pure state
  transformer, mirroring the source statement by statement.
-/

namespace HpNodeStream

/-! ## types.rs -/

inductive Side where
  | Buy
  | Sell
deriving DecidableEq, Repr

structure Order where
  id : Nat
  side : Side
  price : ℚ
  size : ℚ
  timestamp : Nat
deriving DecidableEq, Repr

structure OrderLocation where
  side : Side
  price : ℚ
  index : Nat
deriving DecidableEq, Repr

/-! ## Association-list models of `HashMap` (unsorted, first match wins)
and `BTreeMap` (kept sorted by key, ascending). -/

/-- `HashMap::get`: first entry with the key. -/
def hmGet {ν : Type} (m : List (Nat × ν)) (k : Nat) : Option ν :=
  match m with
  | [] => none
  | (k', v) :: rest => if k' = k then some v else hmGet rest k

/-- `HashMap::insert`: replace the entry if the key is present, else append. -/
def hmInsert {ν : Type} (m : List (Nat × ν)) (k : Nat) (v : ν) : List (Nat × ν) :=
  match m with
  | [] => [(k, v)]
  | (k', v') :: rest => if k' = k then (k, v) :: rest else (k', v') :: hmInsert rest k v

/-- `HashMap::remove`: drop the first entry with the key. -/
def hmRemove {ν : Type} (m : List (Nat × ν)) (k : Nat) : List (Nat × ν) :=
  match m with
  | [] => []
  | (k', v') :: rest => if k' = k then rest else (k', v') :: hmRemove rest k

/-- `BTreeMap::get` on the sorted association list. -/
def smGet {ν : Type} (m : List (ℚ × ν)) (k : ℚ) : Option ν :=
  match m with
  | [] => none
  | (k', v) :: rest => if k' = k then some v else smGet rest k

/-- `BTreeMap::contains_key`. -/
def smContains {ν : Type} (m : List (ℚ × ν)) (k : ℚ) : Bool :=
  (smGet m k).isSome

/-- `BTreeMap::insert`: ordered insert, replacing an existing entry. -/
def smInsert {ν : Type} (m : List (ℚ × ν)) (k : ℚ) (v : ν) : List (ℚ × ν) :=
  match m with
  | [] => [(k, v)]
  | (k', v') :: rest =>
    if k < k' then (k, v) :: (k', v') :: rest
    else if k = k' then (k, v) :: rest
    else (k', v') :: smInsert rest k v

/-- `BTreeMap::remove`: drop the entry with the key. -/
def smRemove {ν : Type} (m : List (ℚ × ν)) (k : ℚ) : List (ℚ × ν) :=
  match m with
  | [] => []
  | (k', v') :: rest => if k' = k then rest else (k', v') :: smRemove rest k

/-- `book.keys().last()` followed by `book.remove(&worst_price)`: the map is
sorted ascending, so this removes the final entry. -/
def smRemoveLast {ν : Type} (m : List (ℚ × ν)) : List (ℚ × ν) :=
  m.dropLast

/-- `Vec::swap_remove(i)`: replace element `i` with the last element and
shrink by one (for `i < length`; the source guards the call accordingly). -/
def swapRemove {α : Type} (l : List α) (i : Nat) : List α :=
  match l.getLast? with
  | none => l
  | some a => (l.set i a).dropLast

/-! ## orderbook.rs -/

structure Orderbook where
  symbol : String
  marketId : Nat
  /-- bids keyed by `OrderedFloat(-price)`, ascending. -/
  bids : List (ℚ × List Order)
  /-- asks keyed by price, ascending. -/
  asks : List (ℚ × List Order)
  /-- order id → location index (`HashMap<u64, OrderLocation>`). -/
  orders : List (Nat × OrderLocation)
  sequence : Nat
  maxOrdersPerLevel : Nat
  maxLevelsPerSide : Nat
  maxTotalOrders : Nat
deriving DecidableEq, Repr

namespace Orderbook

def new (marketId : Nat) (symbol : String) : Orderbook :=
  { symbol := symbol, marketId := marketId, bids := [], asks := [], orders := []
    sequence := 0, maxOrdersPerLevel := 100, maxLevelsPerSide := 1000
    maxTotalOrders := 10000 }

def with_limits (marketId : Nat) (symbol : String)
    (maxOrdersPerLevel maxLevelsPerSide maxTotalOrders : Nat) : Orderbook :=
  { symbol := symbol, marketId := marketId, bids := [], asks := [], orders := []
    sequence := 0, maxOrdersPerLevel := maxOrdersPerLevel
    maxLevelsPerSide := maxLevelsPerSide, maxTotalOrders := maxTotalOrders }

/-- `Orderbook::add_order`, mirrored branch by branch. -/
def add_order (b : Orderbook) (o : Order) : Orderbook :=
  -- "Check if we've hit the total order limit" → skip silently.
  if b.maxTotalOrders ≤ b.orders.length then b
  else
    let seq := b.sequence + 1
    let priceKey := if o.side = Side.Buy then -o.price else o.price
    let book0 := if o.side = Side.Buy then b.bids else b.asks
    -- "Check if we have too many price levels" → evict the worst level.
    let book1 :=
      if b.maxLevelsPerSide ≤ book0.length ∧ ¬ smContains book0 priceKey
      then smRemoveLast book0 else book0
    let lvl := (smGet book1 priceKey).getD []
    -- "Check if this price level has too many orders" → FIFO-evict the oldest.
    let evicted :=
      if b.maxOrdersPerLevel ≤ lvl.length then
        match lvl with
        | [] => (([] : List Order), b.orders)
        | old :: rest => (rest, hmRemove b.orders old.id)
      else (lvl, b.orders)
    let lvl1 := evicted.1
    let ordersMap1 := evicted.2
    let index := lvl1.length
    let lvl2 := lvl1 ++ [o]
    let book2 := smInsert book1 priceKey lvl2
    let ordersMap2 := hmInsert ordersMap1 o.id ⟨o.side, o.price, index⟩
    if o.side = Side.Buy then
      { b with bids := book2, orders := ordersMap2, sequence := seq }
    else
      { b with asks := book2, orders := ordersMap2, sequence := seq }

/-- `Orderbook::cancel_order`, mirrored branch by branch. -/
def cancel_order (b : Orderbook) (orderId : Nat) : Orderbook :=
  let seq := b.sequence + 1
  match hmGet b.orders orderId with
  | none => { b with sequence := seq }
  | some loc =>
    let ordersMap := hmRemove b.orders orderId
    let priceKey := if loc.side = Side.Buy then -loc.price else loc.price
    let book0 := if loc.side = Side.Buy then b.bids else b.asks
    let book1 :=
      match smGet book0 priceKey with
      | none => book0
      | some lvl =>
        if loc.index < lvl.length then
          let lvl' := swapRemove lvl loc.index
          if lvl' = [] then smRemove book0 priceKey else smInsert book0 priceKey lvl'
        else book0
    if loc.side = Side.Buy then
      { b with bids := book1, orders := ordersMap, sequence := seq }
    else
      { b with asks := book1, orders := ordersMap, sequence := seq }

/-- `Orderbook::get_snapshot`: `take(depth)` with `depth = 0` mapped to
`usize::MAX`, i.e. the whole side. -/
def get_snapshot (b : Orderbook) (depth : Nat) : List (ℚ × ℚ) × List (ℚ × ℚ) :=
  let cut : List (ℚ × List Order) → List (ℚ × List Order) :=
    fun l => if depth = 0 then l else l.take depth
  let bidLevels := (cut b.bids).map (fun e => (-e.1, (e.2.map Order.size).sum))
  let askLevels := (cut b.asks).map (fun e => (e.1, (e.2.map Order.size).sum))
  (bidLevels, askLevels)

/-- `Orderbook::clear`: empties both sides and the index, sets `sequence = 0`. -/
def clear (b : Orderbook) : Orderbook :=
  { b with bids := [], asks := [], orders := [], sequence := 0 }

end Orderbook

/-- One ingest-visible mutation of an `Orderbook`. -/
inductive BookOp where
  | add (o : Order)
  | cancel (orderId : Nat)
  | clear
deriving Repr

def applyBookOp (b : Orderbook) (op : BookOp) : Orderbook :=
  match op with
  | .add o => b.add_order o
  | .cancel oid => b.cancel_order oid
  | .clear => b.clear

def runBook (b : Orderbook) (ops : List BookOp) : Orderbook :=
  ops.foldl applyBookOp b

/-! ## fast_orderbook.rs -/

structure FOrder where
  id : Nat
  price : ℚ
  size : ℚ
  timestamp : Nat
deriving DecidableEq, Repr

structure FOLevel where
  price : ℚ
  totalSize : ℚ
  orders : List FOrder
deriving DecidableEq, Repr

namespace FOLevel

def newLevel (price : ℚ) : FOLevel :=
  { price := price, totalSize := 0, orders := [] }

/-- `PriceLevel::add_order`. -/
def add_order (l : FOLevel) (o : FOrder) : FOLevel :=
  { l with orders := l.orders ++ [o], totalSize := l.totalSize + o.size }

/-- Remove the first order with the id, returning the shrunk order list and
the removed order (the source returns `bool`; the level mutation is the same). -/
def removeFirst (orders : List FOrder) (orderId : Nat) : Option (FOrder × List FOrder) :=
  match orders with
  | [] => none
  | o :: rest =>
    if o.id = orderId then some (o, rest)
    else
      match removeFirst rest orderId with
      | some (r, rest') => some (r, o :: rest')
      | none => none

/-- `PriceLevel::remove_order`: `none` when no order with the id rests here. -/
def remove_order (l : FOLevel) (orderId : Nat) : Option FOLevel :=
  match removeFirst l.orders orderId with
  | none => none
  | some (o, rest) => some { l with orders := rest, totalSize := l.totalSize - o.size }

end FOLevel

inductive OrderbookDelta where
  | AddBid (price : ℚ) (size : ℚ) (orderId : Nat)
  | AddAsk (price : ℚ) (size : ℚ) (orderId : Nat)
  | RemoveBid (price : ℚ) (orderId : Nat)
  | RemoveAsk (price : ℚ) (orderId : Nat)
  | Clear
deriving DecidableEq, Repr

structure FastOrderbook where
  marketId : Nat
  symbol : String
  /-- bid levels sorted by price descending (binary search with reversed
  comparator in the source). -/
  bidLevels : List FOLevel
  /-- ask levels sorted by price ascending. -/
  askLevels : List FOLevel
  sequence : Nat
  bidCount : Nat
  askCount : Nat
  totalOrders : Nat
deriving DecidableEq, Repr

namespace FastOrderbook

def new (marketId : Nat) (symbol : String) : FastOrderbook :=
  { marketId := marketId, symbol := symbol, bidLevels := [], askLevels := []
    sequence := 0, bidCount := 0, askCount := 0, totalOrders := 0 }

/-- `binary_search_by` + hit/miss branches of `add_order` on the bid side
(descending): append into the matching level, or insert a fresh level at
the position the search reports. Returns the new levels and whether a new
level was created. -/
def insertBid (o : FOrder) (levels : List FOLevel) : List FOLevel × Bool :=
  match levels with
  | [] => ([(FOLevel.newLevel o.price).add_order o], true)
  | l :: rest =>
    if l.price = o.price then (l.add_order o :: rest, false)
    else if l.price < o.price then ((FOLevel.newLevel o.price).add_order o :: l :: rest, true)
    else
      let step := insertBid o rest
      (l :: step.1, step.2)

/-- Same for the ask side (ascending order). -/
def insertAsk (o : FOrder) (levels : List FOLevel) : List FOLevel × Bool :=
  match levels with
  | [] => ([(FOLevel.newLevel o.price).add_order o], true)
  | l :: rest =>
    if l.price = o.price then (l.add_order o :: rest, false)
    else if o.price < l.price then ((FOLevel.newLevel o.price).add_order o :: l :: rest, true)
    else
      let step := insertAsk o rest
      (l :: step.1, step.2)

/-- `FastOrderbook::add_order`. -/
def add_order (b : FastOrderbook) (o : FOrder) (isBuy : Bool) :
    FastOrderbook × OrderbookDelta :=
  let seq := b.sequence + 1
  let tot := b.totalOrders + 1
  if isBuy then
    let step := insertBid o b.bidLevels
    ({ b with bidLevels := step.1, sequence := seq, totalOrders := tot
              bidCount := if step.2 then b.bidCount + 1 else b.bidCount },
     OrderbookDelta.AddBid o.price o.size o.id)
  else
    let step := insertAsk o b.askLevels
    ({ b with askLevels := step.1, sequence := seq, totalOrders := tot
              askCount := if step.2 then b.askCount + 1 else b.askCount },
     OrderbookDelta.AddAsk o.price o.size o.id)

/-- `binary_search_by` for the level at `price`, then `PriceLevel::remove_order`,
then drop the level if it emptied. `none` when the level is missing or holds
no order with the id; otherwise the new side and whether a level was removed. -/
def removeFromSide (levels : List FOLevel) (orderId : Nat) (price : ℚ) :
    Option (List FOLevel × Bool) :=
  match levels with
  | [] => none
  | l :: rest =>
    if l.price = price then
      match l.remove_order orderId with
      | some l' => if l'.orders = [] then some (rest, true) else some (l' :: rest, false)
      | none => none
    else
      match removeFromSide rest orderId price with
      | some (rest', removed) => some (l :: rest', removed)
      | none => none

/-- `FastOrderbook::remove_order`. -/
def remove_order (b : FastOrderbook) (orderId : Nat) (price : ℚ) (isBuy : Bool) :
    FastOrderbook × Option OrderbookDelta :=
  let seq := b.sequence + 1
  if isBuy then
    match removeFromSide b.bidLevels orderId price with
    | some (levels', removedLevel) =>
      ({ b with bidLevels := levels', sequence := seq
                totalOrders := b.totalOrders - 1
                bidCount := if removedLevel then b.bidCount - 1 else b.bidCount },
       some (OrderbookDelta.RemoveBid price orderId))
    | none => ({ b with sequence := seq }, none)
  else
    match removeFromSide b.askLevels orderId price with
    | some (levels', removedLevel) =>
      ({ b with askLevels := levels', sequence := seq
                totalOrders := b.totalOrders - 1
                askCount := if removedLevel then b.askCount - 1 else b.askCount },
       some (OrderbookDelta.RemoveAsk price orderId))
    | none => ({ b with sequence := seq }, none)

/-- `FastOrderbook::get_snapshot`: a plain `take(depth)` on both sides —
there is no special case for `depth = 0`. -/
def get_snapshot (b : FastOrderbook) (depth : Nat) : List (ℚ × ℚ) × List (ℚ × ℚ) :=
  ((b.bidLevels.take depth).map (fun l => (l.price, l.totalSize)),
   (b.askLevels.take depth).map (fun l => (l.price, l.totalSize)))

/-- `FastOrderbook::get_best_bid_ask`. -/
def get_best_bid_ask (b : FastOrderbook) : Option (ℚ × ℚ) :=
  match b.bidLevels.head?, b.askLevels.head? with
  | some bid, some ask => some (bid.price, ask.price)
  | _, _ => none

/-- `FastOrderbook::clear`: empties both sides, zeroes the counters, and
`fetch_add(1)`s the sequence. -/
def clear (b : FastOrderbook) : FastOrderbook :=
  { b with bidLevels := [], askLevels := [], bidCount := 0, askCount := 0
           totalOrders := 0, sequence := b.sequence + 1 }

end FastOrderbook

/-- One mutation of a `FastOrderbook`. -/
inductive FastOp where
  | add (o : FOrder) (isBuy : Bool)
  | remove (orderId : Nat) (price : ℚ) (isBuy : Bool)
  | clear
deriving Repr

def applyFastOp (b : FastOrderbook) (op : FastOp) : FastOrderbook :=
  match op with
  | .add o isBuy => (b.add_order o isBuy).1
  | .remove oid price isBuy => (b.remove_order oid price isBuy).1
  | .clear => b.clear

def runFast (b : FastOrderbook) (ops : List FastOp) : FastOrderbook :=
  ops.foldl applyFastOp b

/-! ## order_parser.rs

Decoded `f64` values are modelled by `F64`: NaN, the two infinities, or a
finite rational, with IEEE comparison semantics (every comparison against
NaN is false). -/

inductive F64 where
  | nan
  | inf
  | neginf
  | finite (q : ℚ)
deriving DecidableEq, Repr

namespace F64

def le : F64 → F64 → Bool
  | nan, _ => false
  | _, nan => false
  | neginf, _ => true
  | _, neginf => false
  | _, inf => true
  | inf, _ => false
  | finite a, finite b => a ≤ b

def lt : F64 → F64 → Bool
  | nan, _ => false
  | _, nan => false
  | neginf, neginf => false
  | neginf, _ => true
  | _, neginf => false
  | inf, _ => false
  | finite _, inf => true
  | finite a, finite b => a < b

def isNan : F64 → Bool
  | nan => true
  | _ => false

def isInfinite : F64 → Bool
  | inf => true
  | neginf => true
  | _ => false

end F64

structure RawOrder where
  oid : Nat
  coin : String
  side : String
  limitPx : F64
  sz : F64
  isTrigger : Bool
  triggerCondition : String
  timestamp : Nat
deriving DecidableEq, Repr

structure OrderMessage where
  order : RawOrder
  status : String
  user : String
  timestampMs : Nat
deriving DecidableEq, Repr

inductive OrderStatus where
  | Open
  | Filled
  | Canceled
  | Rejected (reason : String)
  | Unknown (raw : String)
deriving DecidableEq, Repr

/-- `OrderStatus::from(&str)`. -/
def orderStatusFrom (s : String) : OrderStatus :=
  if s = "open" then .Open
  else if s = "filled" then .Filled
  else if s = "canceled" ∨ s = "cancelled" then .Canceled
  else if (s.splitOn "Rejected").length > 1 then .Rejected s
  else .Unknown s

structure ValidatedOrder where
  id : Nat
  coin : String
  isBuy : Bool
  price : F64
  size : F64
  status : OrderStatus
  user : String
  timestamp : Nat
  isTrigger : Bool
  triggerCondition : String
deriving DecidableEq, Repr

/-- `OrderParser` configuration (the metric counters are irrelevant to the
validation result and are omitted). -/
structure OrderParser where
  maxPrice : ℚ
  maxSize : ℚ
  allowedCoins : Option (List String)
deriving Repr

namespace OrderParser

def new : OrderParser :=
  { maxPrice := 10000000, maxSize := 1000000, allowedCoins := none }

/-- The `if let Some(allowed) = &self.allowed_coins` guard of
`validate_order`: blocked when an allow-list exists and misses the coin. -/
def coinBlocked (allowedCoins : Option (List String)) (coin : String) : Bool :=
  match allowedCoins with
  | some allowed => !(allowed.contains coin)
  | none => false

/-- `OrderParser::validate_order`, guard for guard (the source's
`let order = &msg.order` is inlined). `coin.len()` in Rust is the UTF-8
byte length. -/
def validate_order (p : OrderParser) (msg : OrderMessage) : Except String ValidatedOrder :=
  if msg.order.limitPx.le (.finite 0) then .error "Invalid price (must be positive)"
  else if (F64.finite p.maxPrice).lt msg.order.limitPx then .error "Price too high"
  else if msg.order.limitPx.isNan ∨ msg.order.limitPx.isInfinite then
    .error "Invalid price (NaN or Infinite)"
  else if msg.order.sz.le (.finite 0) then .error "Invalid size (must be positive)"
  else if (F64.finite p.maxSize).lt msg.order.sz then .error "Size too large"
  else if msg.order.sz.isNan ∨ msg.order.sz.isInfinite then
    .error "Invalid size (NaN or Infinite)"
  else if msg.order.coin = "" then .error "Empty coin symbol"
  else if 20 < msg.order.coin.utf8ByteSize then .error "Coin symbol too long"
  else if coinBlocked p.allowedCoins msg.order.coin then .error "Unknown coin"
  else if msg.order.side = "B" then
    .ok { id := msg.order.oid, coin := msg.order.coin, isBuy := true
          price := msg.order.limitPx, size := msg.order.sz
          status := orderStatusFrom msg.status, user := msg.user
          timestamp := msg.order.timestamp, isTrigger := msg.order.isTrigger
          triggerCondition := msg.order.triggerCondition }
  else if msg.order.side = "A" then
    .ok { id := msg.order.oid, coin := msg.order.coin, isBuy := false
          price := msg.order.limitPx, size := msg.order.sz
          status := orderStatusFrom msg.status, user := msg.user
          timestamp := msg.order.timestamp, isTrigger := msg.order.isTrigger
          triggerCondition := msg.order.triggerCondition }
  else .error "Invalid side (expected B or A)"

/-- `OrderParser::parse_line` on the result of the JSON decode (`none` when
`serde_json::from_str` failed). -/
def parse_line (p : OrderParser) (decoded : Option OrderMessage) :
    Except String ValidatedOrder :=
  match decoded with
  | none => .error "Failed to parse JSON"
  | some msg => p.validate_order msg

end OrderParser

/-! ## per_market_circuit_breaker.rs

`Instant`s are modelled as abstract `Nat` timestamps supplied by the caller. -/

structure CircuitBreakerConfig where
  failureThreshold : Nat
  successThreshold : Nat
  timeout : Nat
  errorWindow : Nat
deriving DecidableEq, Repr

def defaultCircuitBreakerConfig : CircuitBreakerConfig :=
  { failureThreshold := 10, successThreshold := 3, timeout := 30, errorWindow := 60 }

inductive CircuitState where
  | Closed (consecutiveFailures : Nat)
  | Open (since : Nat) (failureReason : String)
  | HalfOpen (consecutiveSuccesses : Nat)
deriving DecidableEq, Repr

structure MarketCircuitBreaker where
  state : CircuitState
  lastFailureTime : Option Nat
  totalFailures : Nat
  totalSuccesses : Nat
deriving DecidableEq, Repr

def MarketCircuitBreaker.new : MarketCircuitBreaker :=
  { state := .Closed 0, lastFailureTime := none, totalFailures := 0, totalSuccesses := 0 }

/-- The per-breaker body of `record_market_success`. -/
def successStep (cfg : CircuitBreakerConfig) (b : MarketCircuitBreaker) :
    MarketCircuitBreaker :=
  let b := { b with totalSuccesses := b.totalSuccesses + 1 }
  match b.state with
  | .Closed _ => { b with state := .Closed 0 }
  | .HalfOpen n =>
    if cfg.successThreshold ≤ n + 1 then { b with state := .Closed 0 }
    else { b with state := .HalfOpen (n + 1) }
  | .Open s r => { b with state := .Open s r }

/-- The per-breaker body of `record_market_failure`. -/
def failureStep (cfg : CircuitBreakerConfig) (b : MarketCircuitBreaker)
    (now : Nat) (reason : String) : MarketCircuitBreaker :=
  let b := { b with totalFailures := b.totalFailures + 1, lastFailureTime := some now }
  match b.state with
  | .Closed n =>
    if cfg.failureThreshold ≤ n + 1 then { b with state := .Open now reason }
    else { b with state := .Closed (n + 1) }
  | .HalfOpen _ => { b with state := .Open now reason }
  | .Open s r => { b with state := .Open s r }

/-- The breaker map: `HashMap<u32, MarketCircuitBreaker>` with
`entry().or_insert_with(new)` — observably a total map defaulting to a
fresh breaker. -/
def BreakerMap : Type := Nat → MarketCircuitBreaker

def freshBreakers : BreakerMap := fun _ => MarketCircuitBreaker.new

/-- `PerMarketCircuitBreaker::record_market_success`. -/
def record_market_success (cfg : CircuitBreakerConfig) (m : BreakerMap)
    (marketId : Nat) : BreakerMap :=
  fun k => if k = marketId then successStep cfg (m marketId) else m k

/-- `PerMarketCircuitBreaker::record_market_failure`. -/
def record_market_failure (cfg : CircuitBreakerConfig) (m : BreakerMap)
    (marketId : Nat) (now : Nat) (reason : String) : BreakerMap :=
  fun k => if k = marketId then failureStep cfg (m marketId) now reason else m k

/-- `PerMarketCircuitBreaker::is_market_open`. -/
def is_market_open (m : BreakerMap) (marketId : Nat) : Bool :=
  match (m marketId).state with
  | .Open _ _ => true
  | _ => false

/-! ## mark_price_v2.rs

Real time enters only through the EMA update, as the elapsed time `t` (in
minutes) and the decay factor `exp(-t / τ)`. Both are passed in as explicit
rational parameters; `t ≥ 0` and `decay = exp(negative) > 0` hold for every
real execution and appear as hypotheses where needed. -/

/-- `EMACalculator` state. `initialized` models `last_update.is_some()`. -/
structure EMACalculator where
  timeConstantMinutes : ℚ
  numerator : ℚ
  denominator : ℚ
  initialized : Bool
deriving DecidableEq, Repr

namespace EMACalculator

def new (timeConstantMinutes : ℚ) : EMACalculator :=
  { timeConstantMinutes := timeConstantMinutes, numerator := 0, denominator := 0
    initialized := false }

/-- `EMACalculator::update`: returns the value the source returns together
with the new state. `decay` and `t` stand for `exp(-t/τ)` and the elapsed
minutes; they are ignored on the first sample, exactly as in the source. -/
def update (e : EMACalculator) (sample : ℚ) (decay t : ℚ) : ℚ × EMACalculator :=
  let e' :=
    if e.initialized then
      { e with numerator := e.numerator * decay + sample * t
               denominator := e.denominator * decay + t }
    else
      { e with numerator := sample, denominator := 1, initialized := true }
  (if 0 < e'.denominator then e'.numerator / e'.denominator else sample, e')

/-- `EMACalculator::get_value`. -/
def get_value (e : EMACalculator) : Option ℚ :=
  if 0 < e.denominator then some (e.numerator / e.denominator) else none

end EMACalculator

structure CEXPrices where
  binance : Option ℚ
  okx : Option ℚ
  bybit : Option ℚ
  gate : Option ℚ
  mexc : Option ℚ
deriving DecidableEq, Repr

structure MarkPriceInputs where
  bestBid : ℚ
  bestAsk : ℚ
  lastTrade : Option ℚ
  oraclePrice : Option ℚ
  cexPrices : Option CEXPrices
deriving DecidableEq, Repr

structure MarkPriceResult where
  markPrice : ℚ
  oracleAdjusted : Option ℚ
  internalMedian : ℚ
  cexMedian : Option ℚ
  usedFallback : Bool
deriving DecidableEq, Repr

/-- Insertion into a `≤`-sorted list; `sortQ` models the stable
`sort_by(partial_cmp)` (only the sorted multiset matters to the median). -/
def insertSorted (x : ℚ) : List ℚ → List ℚ
  | [] => [x]
  | y :: ys => if x ≤ y then x :: y :: ys else y :: insertSorted x ys

def sortQ (l : List ℚ) : List ℚ :=
  l.foldr insertSorted []

/-- `calculate_median`. -/
def calculate_median (values : List ℚ) : ℚ :=
  let s := sortQ values
  let len := s.length
  if len = 0 then 0
  else if len % 2 = 0 then (s.getD (len / 2 - 1) 0 + s.getD (len / 2) 0) / 2
  else s.getD (len / 2) 0

/-- `calculate_cex_weighted_median`: weights Binance 3, OKX 2, Bybit 2,
Gate 1, MEXC 1. -/
def calculate_cex_weighted_median (cex : CEXPrices) : Option ℚ :=
  let weighted :=
    (match cex.binance with | some p => [p, p, p] | none => []) ++
    (match cex.okx with | some p => [p, p] | none => []) ++
    (match cex.bybit with | some p => [p, p] | none => []) ++
    (match cex.gate with | some p => [p] | none => []) ++
    (match cex.mexc with | some p => [p] | none => [])
  if weighted = [] then none else some (calculate_median weighted)

/-- `HyperliquidMarkPriceCalculator` state. -/
structure HLMarkPriceCalculator where
  oracleBasisEma : EMACalculator
  fallbackMidEma : EMACalculator
  lastOraclePrice : Option ℚ
  lastTradePrice : Option ℚ
deriving DecidableEq, Repr

namespace HLMarkPriceCalculator

def new : HLMarkPriceCalculator :=
  { oracleBasisEma := EMACalculator.new (5/2), fallbackMidEma := EMACalculator.new (1/2)
    lastOraclePrice := none, lastTradePrice := none }

/-- `HyperliquidMarkPriceCalculator::calculate_mark_price`, statement by
statement. `decayO`/`tO` and `decayF`/`tF` are the decay factor and elapsed
minutes that the two EMA updates observe at the call's `now`. -/
def calculate_mark_price (c : HLMarkPriceCalculator) (inputs : MarkPriceInputs)
    (decayO tO decayF tF : ℚ) : MarkPriceResult × HLMarkPriceCalculator :=
  let midPrice := (inputs.bestBid + inputs.bestAsk) / 2
  let c :=
    match inputs.lastTrade with
    | some trade => { c with lastTradePrice := some trade }
    | none => c
  let c := { c with fallbackMidEma := (c.fallbackMidEma.update midPrice decayF tF).2 }
  -- Input 1: oracle + 150 s EMA(mid - oracle)
  let step1 :
      Option ℚ × HLMarkPriceCalculator :=
    match inputs.oraclePrice with
    | some oracle =>
      let basis := midPrice - oracle
      let upd := c.oracleBasisEma.update basis decayO tO
      (some (oracle + upd.1),
       { c with oracleBasisEma := upd.2, lastOraclePrice := some oracle })
    | none => (none, c)
  let oracleAdjusted := step1.1
  let c := step1.2
  let inputs1 : List ℚ := match oracleAdjusted with | some a => [a] | none => []
  -- Input 2: median of internal book data
  let internalPrices :=
    [inputs.bestBid, inputs.bestAsk] ++
    (match c.lastTradePrice with | some t => [t] | none => [])
  let internalMedian := calculate_median internalPrices
  let inputs2 := inputs1 ++ [internalMedian]
  -- Input 3: weighted median of CEX prices
  let cexMedian :=
    match inputs.cexPrices with
    | some cex => calculate_cex_weighted_median cex
    | none => none
  let inputs3 := inputs2 ++ (match cexMedian with | some m => [m] | none => [])
  -- Fallback: if only 2 inputs exist, add the 30 s EMA of mid
  let fb : Bool × List ℚ :=
    if inputs3.length = 2 then
      match c.fallbackMidEma.get_value with
      | some f => (true, inputs3 ++ [f])
      | none => (false, inputs3)
    else (false, inputs3)
  let markPrice := calculate_median fb.2
  ({ markPrice := markPrice, oracleAdjusted := oracleAdjusted
     internalMedian := internalMedian, cexMedian := cexMedian
     usedFallback := fb.1 }, c)

end HLMarkPriceCalculator

/-! ## stop_orders.rs -/

structure StopOrder where
  id : Nat
  user : String
  coin : String
  side : String
  price : ℚ
  size : ℚ
  triggerCondition : String
  timestamp : Nat
deriving DecidableEq, Repr

/-- `HashMap<String, _>` lookup for the user maps. -/
def umGet {ν : Type} (m : List (String × ν)) (k : String) : Option ν :=
  match m with
  | [] => none
  | (k', v) :: rest => if k' = k then some v else umGet rest k

def umInsert {ν : Type} (m : List (String × ν)) (k : String) (v : ν) :
    List (String × ν) :=
  match m with
  | [] => [(k, v)]
  | (k', v') :: rest => if k' = k then (k, v) :: rest else (k', v') :: umInsert rest k v

def umRemove {ν : Type} (m : List (String × ν)) (k : String) : List (String × ν) :=
  match m with
  | [] => []
  | (k', v') :: rest => if k' = k then rest else (k', v') :: umRemove rest k

/-- `StopOrderManager` state. Both `HashMap`s are modelled as association
lists iterated in insertion order (one realizable iteration order of the
source's hash maps, on which `remove_stop_order`'s scan depends). -/
structure StopOrderManager where
  ordersByMarket : List (Nat × List (String × List StopOrder))
  allOrders : List (Nat × StopOrder)
deriving DecidableEq, Repr

namespace StopOrderManager

def new : StopOrderManager :=
  { ordersByMarket := [], allOrders := [] }

/-- `StopOrderManager::add_stop_order`. -/
def add_stop_order (st : StopOrderManager) (marketId : Nat) (o : StopOrder) :
    StopOrderManager :=
  let allOrders := hmInsert st.allOrders o.id o
  let marketOrders := (hmGet st.ordersByMarket marketId).getD []
  let userOrders := (umGet marketOrders o.user).getD []
  let marketOrders' := umInsert marketOrders o.user (userOrders ++ [o])
  { st with allOrders := allOrders
            ordersByMarket := hmInsert st.ordersByMarket marketId marketOrders' }

/-- The `for (_, market_orders) in orders_by_market.iter_mut()` loop of
`remove_stop_order`: at the FIRST market whose user map holds the key
`user`, retain the user's orders and `break` — whether or not the order
with `orderId` was actually there. -/
def removeScan (markets : List (Nat × List (String × List StopOrder)))
    (user : String) (orderId : Nat) : List (Nat × List (String × List StopOrder)) :=
  match markets with
  | [] => []
  | (m, userMap) :: rest =>
    match umGet userMap user with
    | some userOrders =>
      let userOrders' := userOrders.filter (fun o => o.id ≠ orderId)
      let userMap' :=
        if userOrders' = [] then umRemove userMap user
        else umInsert userMap user userOrders'
      (m, userMap') :: rest
    | none => (m, userMap) :: removeScan rest user orderId

/-- `StopOrderManager::remove_stop_order`. -/
def remove_stop_order (st : StopOrderManager) (orderId : Nat) : StopOrderManager :=
  match hmGet st.allOrders orderId with
  | none => st
  | some o =>
    { st with allOrders := hmRemove st.allOrders orderId
              ordersByMarket := removeScan st.ordersByMarket o.user orderId }

/-- `StopOrderManager::get_stop_orders_by_market`. -/
def get_stop_orders_by_market (st : StopOrderManager) (marketId : Nat) :
    List StopOrder :=
  match hmGet st.ordersByMarket marketId with
  | some marketOrders => marketOrders.flatMap (fun e => e.2)
  | none => []

/-- `StopOrderManager::get_stop_orders_by_user`. -/
def get_stop_orders_by_user (st : StopOrderManager) (user : String) :
    List StopOrder :=
  st.ordersByMarket.flatMap (fun e =>
    match umGet e.2 user with
    | some userOrders => userOrders
    | none => [])

/-- `StopOrderManager::get_all_stop_orders`. -/
def get_all_stop_orders (st : StopOrderManager) : List StopOrder :=
  st.allOrders.map (fun e => e.2)

/-- The fill-walking loop of `calculate_slippage`: returns
`(remaining_size, total_cost, filled_size)`. -/
def walkFill (levels : List (ℚ × ℚ)) (remaining cost filled : ℚ) : ℚ × ℚ × ℚ :=
  match levels with
  | [] => (remaining, cost, filled)
  | (price, size) :: rest =>
    if remaining ≤ 0 then (remaining, cost, filled)
    else
      let fillSize := min remaining size
      walkFill rest (remaining - fillSize) (cost + fillSize * price) (filled + fillSize)

/-- `StopOrderManager::calculate_slippage` (`is_buy` is unused in the
source body as well). -/
def calculate_slippage (order : StopOrder) (orderbookLevels : List (ℚ × ℚ))
    (isBuy : Bool) : ℚ :=
  let w := walkFill orderbookLevels order.size 0 0
  let filledSize := w.2.2
  let totalCost := w.2.1
  if 0 < filledSize then
    (|totalCost / filledSize - order.price| / order.price) * 10000
  else
    1000

end StopOrderManager

/-! ## Sortedness predicates for the book invariants -/

/-- The `BTreeMap` model really is sorted by key, strictly ascending. -/
def SortedKeys {ν : Type} (m : List (ℚ × ν)) : Prop :=
  m.Pairwise (fun a b => a.1 < b.1)

/-- Both sides of an `Orderbook` are sorted (bid keys are negated prices, so
ascending keys mean descending bid prices). -/
def SortedBook (b : Orderbook) : Prop :=
  SortedKeys b.bids ∧ SortedKeys b.asks

/-- `FastOrderbook` sides: bids strictly descending, asks strictly ascending. -/
def SortedFast (b : FastOrderbook) : Prop :=
  (b.bidLevels.map FOLevel.price).Pairwise (fun a b => b < a) ∧
  (b.askLevels.map FOLevel.price).Pairwise (fun a b => a < b)

/-! # Theorems -/

/-! ## Generic facts about the map models -/

theorem hmInsert_length_le {ν : Type} (m : List (Nat × ν)) (k : Nat) (v : ν) :
    (hmInsert m k v).length ≤ m.length + 1 := by
  induction m with
  | nil => simp [hmInsert]
  | cons hd tl ih =>
    obtain ⟨k', v'⟩ := hd
    by_cases h : k' = k <;> simp [hmInsert, h] <;> omega

theorem hmRemove_length_le {ν : Type} (m : List (Nat × ν)) (k : Nat) :
    (hmRemove m k).length ≤ m.length := by
  induction m with
  | nil => simp [hmRemove]
  | cons hd tl ih =>
    obtain ⟨k', v'⟩ := hd
    by_cases h : k' = k <;> simp [hmRemove, h] <;> omega

/-! ## Orderbook per-operation structure lemmas -/

theorem Orderbook.add_order_at_cap (b : Orderbook) (o : Order)
    (h : b.maxTotalOrders ≤ b.orders.length) : b.add_order o = b := by
  unfold Orderbook.add_order
  rw [if_pos h]

theorem Orderbook.add_order_fields (b : Orderbook) (o : Order)
    (h : b.orders.length < b.maxTotalOrders) :
    (b.add_order o).sequence = b.sequence + 1 ∧
    (b.add_order o).maxTotalOrders = b.maxTotalOrders ∧
    (b.add_order o).maxOrdersPerLevel = b.maxOrdersPerLevel ∧
    (b.add_order o).maxLevelsPerSide = b.maxLevelsPerSide := by
  unfold Orderbook.add_order
  rw [if_neg (by omega)]
  dsimp only
  split <;> exact ⟨rfl, rfl, rfl, rfl⟩

theorem Orderbook.add_order_orders_le (b : Orderbook) (o : Order)
    (h : b.orders.length < b.maxTotalOrders) :
    (b.add_order o).orders.length ≤ b.orders.length + 1 := by
  unfold Orderbook.add_order
  rw [if_neg (by omega)]
  dsimp only
  have hcore : ∀ lvl : List Order,
      ((if b.maxOrdersPerLevel ≤ lvl.length then
          match lvl with
          | [] => (([] : List Order), b.orders)
          | old :: rest => (rest, hmRemove b.orders old.id)
        else (lvl, b.orders)).2).length ≤ b.orders.length := by
    intro lvl
    split
    · split <;> first | exact le_refl _ | exact hmRemove_length_le _ _
    · exact le_refl _
  split <;>
    exact le_trans (hmInsert_length_le _ _ _) (Nat.add_le_add_right (hcore _) 1)

theorem Orderbook.cancel_order_fields (b : Orderbook) (oid : Nat) :
    (b.cancel_order oid).sequence = b.sequence + 1 ∧
    (b.cancel_order oid).maxTotalOrders = b.maxTotalOrders ∧
    (b.cancel_order oid).maxOrdersPerLevel = b.maxOrdersPerLevel ∧
    (b.cancel_order oid).maxLevelsPerSide = b.maxLevelsPerSide := by
  unfold Orderbook.cancel_order
  dsimp only
  split
  · exact ⟨rfl, rfl, rfl, rfl⟩
  · split <;> exact ⟨rfl, rfl, rfl, rfl⟩

theorem Orderbook.cancel_order_orders_le (b : Orderbook) (oid : Nat) :
    (b.cancel_order oid).orders.length ≤ b.orders.length := by
  unfold Orderbook.cancel_order
  dsimp only
  split
  · exact le_refl _
  · split <;> exact hmRemove_length_le _ _

theorem Orderbook.clear_fields (b : Orderbook) :
    b.clear.sequence = 0 ∧ b.clear.orders = [] ∧
    b.clear.maxTotalOrders = b.maxTotalOrders := ⟨rfl, rfl, rfl⟩

/-! ## FastOrderbook per-operation structure lemmas -/

theorem FastOrderbook.add_order_seq (b : FastOrderbook) (o : FOrder) (isBuy : Bool) :
    (b.add_order o isBuy).1.sequence = b.sequence + 1 := by
  unfold FastOrderbook.add_order
  dsimp only
  split <;> rfl

theorem FastOrderbook.add_order_total (b : FastOrderbook) (o : FOrder) (isBuy : Bool) :
    (b.add_order o isBuy).1.totalOrders = b.totalOrders + 1 := by
  unfold FastOrderbook.add_order
  dsimp only
  split <;> rfl

theorem FastOrderbook.remove_order_seq (b : FastOrderbook) (oid : Nat) (price : ℚ)
    (isBuy : Bool) : (b.remove_order oid price isBuy).1.sequence = b.sequence + 1 := by
  unfold FastOrderbook.remove_order
  dsimp only
  split <;> split <;> rfl

theorem FastOrderbook.clear_seq (b : FastOrderbook) :
    b.clear.sequence = b.sequence + 1 := rfl

theorem applyFastOp_seq (b : FastOrderbook) (op : FastOp) :
    (applyFastOp b op).sequence = b.sequence + 1 := by
  cases op with
  | add o isBuy => exact FastOrderbook.add_order_seq b o isBuy
  | remove oid price isBuy => exact FastOrderbook.remove_order_seq b oid price isBuy
  | clear => exact FastOrderbook.clear_seq b

theorem runFast_seq (b : FastOrderbook) (ops : List FastOp) :
    (runFast b ops).sequence = b.sequence + ops.length := by
  induction ops generalizing b with
  | nil => rfl
  | cons op rest ih =>
    show (runFast (applyFastOp b op) rest).sequence = b.sequence + (rest.length + 1)
    rw [ih, applyFastOp_seq]
    omega

theorem runFast_replicate_add_total (b : FastOrderbook) (o : FOrder) (n : Nat) :
    (runFast b (List.replicate n (FastOp.add o true))).totalOrders =
      b.totalOrders + n := by
  induction n generalizing b with
  | zero => rfl
  | succ k ih =>
    rw [List.replicate_succ]
    show (runFast (applyFastOp b (FastOp.add o true)) _).totalOrders = _
    rw [ih, applyFastOp, FastOrderbook.add_order_total]
    omega

/-! ## Claim C1 -/

/-- The order used in small concrete counterexamples and witnesses. -/
def oBuy : Order :=
  { id := 1, side := Side.Buy, price := 100, size := 2, timestamp := 0 }

/-- Claim C1, as stated, is false: `Orderbook::clear` sets `sequence = 0`
instead of incrementing it, so after one `add` (sequence 1) a `clear`
drops the sequence back to 0 — the counter decreases and the mutation did
not add exactly 1. -/
theorem claim_C1_cex :
    ((Orderbook.new 0 "BTC").add_order oBuy).sequence = 1 ∧
    (((Orderbook.new 0 "BTC").add_order oBuy).clear).sequence = 0 ∧
    ¬ ((((Orderbook.new 0 "BTC").add_order oBuy).clear).sequence
        = ((Orderbook.new 0 "BTC").add_order oBuy).sequence + 1) ∧
    (((Orderbook.new 0 "BTC").add_order oBuy).clear).sequence
        < ((Orderbook.new 0 "BTC").add_order oBuy).sequence := by
  refine ⟨by decide, rfl, by decide, by decide⟩

/-- Claim C1, amended: every `FastOrderbook` mutation — `add_order`,
`remove_order` and `clear` — increments the sequence by exactly 1, so over
any operation sequence it equals the operation count and never decreases;
for `Orderbook`, `add_order` below the total-order cap and `cancel_order`
increment the sequence by exactly 1 (an add dropped at the cap leaves the
book unchanged), but `Orderbook.clear` resets the sequence to 0. -/
theorem claim_C1 :
    (∀ (b : Orderbook) (o : Order), b.orders.length < b.maxTotalOrders →
      (b.add_order o).sequence = b.sequence + 1) ∧
    (∀ (b : Orderbook) (o : Order), b.maxTotalOrders ≤ b.orders.length →
      b.add_order o = b) ∧
    (∀ (b : Orderbook) (oid : Nat), (b.cancel_order oid).sequence = b.sequence + 1) ∧
    (∀ b : Orderbook, b.clear.sequence = 0) ∧
    (∀ (b : FastOrderbook) (o : FOrder) (isBuy : Bool),
      (b.add_order o isBuy).1.sequence = b.sequence + 1) ∧
    (∀ (b : FastOrderbook) (oid : Nat) (price : ℚ) (isBuy : Bool),
      (b.remove_order oid price isBuy).1.sequence = b.sequence + 1) ∧
    (∀ b : FastOrderbook, b.clear.sequence = b.sequence + 1) ∧
    (∀ (b : FastOrderbook) (ops : List FastOp),
      (runFast b ops).sequence = b.sequence + ops.length) :=
  ⟨fun b o h => (Orderbook.add_order_fields b o h).1,
   Orderbook.add_order_at_cap,
   fun b oid => (Orderbook.cancel_order_fields b oid).1,
   fun b => (Orderbook.clear_fields b).1,
   FastOrderbook.add_order_seq,
   FastOrderbook.remove_order_seq,
   FastOrderbook.clear_seq,
   runFast_seq⟩

/-- Witness for `claim_C1`, at a fresh book and one concrete order. -/
theorem claim_C1_witness :
    (Orderbook.new 0 "BTC").orders.length < (Orderbook.new 0 "BTC").maxTotalOrders ∧
    ((Orderbook.new 0 "BTC").add_order oBuy).sequence = (Orderbook.new 0 "BTC").sequence + 1 ∧
    ((FastOrderbook.new 0 "BTC").clear).sequence = (FastOrderbook.new 0 "BTC").sequence + 1 :=
  ⟨by decide, claim_C1.1 (Orderbook.new 0 "BTC") oBuy (by decide),
   claim_C1.2.2.2.2.2.2.1 (FastOrderbook.new 0 "BTC")⟩

/-! ## Claim C2 -/

theorem applyBookOp_cap (b : Orderbook) (op : BookOp)
    (h : b.orders.length ≤ b.maxTotalOrders) :
    (applyBookOp b op).orders.length ≤ (applyBookOp b op).maxTotalOrders ∧
    (applyBookOp b op).maxTotalOrders = b.maxTotalOrders := by
  cases op with
  | add o =>
    show (b.add_order o).orders.length ≤ (b.add_order o).maxTotalOrders ∧
      (b.add_order o).maxTotalOrders = b.maxTotalOrders
    by_cases hlt : b.orders.length < b.maxTotalOrders
    · have hf := Orderbook.add_order_fields b o hlt
      have hl := Orderbook.add_order_orders_le b o hlt
      exact ⟨by rw [hf.2.1]; omega, hf.2.1⟩
    · have hge : b.maxTotalOrders ≤ b.orders.length := by omega
      rw [Orderbook.add_order_at_cap b o hge]
      exact ⟨h, rfl⟩
  | cancel oid =>
    show (b.cancel_order oid).orders.length ≤ (b.cancel_order oid).maxTotalOrders ∧
      (b.cancel_order oid).maxTotalOrders = b.maxTotalOrders
    have hf := Orderbook.cancel_order_fields b oid
    have hl := Orderbook.cancel_order_orders_le b oid
    exact ⟨by rw [hf.2.1]; omega, hf.2.1⟩
  | clear =>
    exact ⟨by simp [applyBookOp, Orderbook.clear], rfl⟩

theorem runBook_cap (b : Orderbook) (ops : List BookOp)
    (h : b.orders.length ≤ b.maxTotalOrders) :
    (runBook b ops).orders.length ≤ (runBook b ops).maxTotalOrders ∧
    (runBook b ops).maxTotalOrders = b.maxTotalOrders := by
  induction ops generalizing b with
  | nil => exact ⟨h, rfl⟩
  | cons op rest ih =>
    show (runBook (applyBookOp b op) rest).orders.length
        ≤ (runBook (applyBookOp b op) rest).maxTotalOrders ∧
      (runBook (applyBookOp b op) rest).maxTotalOrders = b.maxTotalOrders
    have hstep := applyBookOp_cap b op h
    have hrest := ih (applyBookOp b op) hstep.1
    exact ⟨hrest.1, by rw [hrest.2, hstep.2]⟩

/-- The order used in `FastOrderbook` capacity counterexamples. -/
def oFast : FOrder :=
  { id := 1, price := 100, size := 2, timestamp := 0 }

/-- Claim C2, as stated, is false for `FastOrderbook`: its `add_order` has
no capacity check at all. After 10 000 adds (the claimed MAX_TOTAL_ORDERS)
one more add still goes through and the total order count reaches 10 001. -/
theorem claim_C2_cex :
    (runFast (FastOrderbook.new 0 "BTC")
        (List.replicate 10000 (FastOp.add oFast true))).totalOrders = 10000 ∧
    ((runFast (FastOrderbook.new 0 "BTC")
        (List.replicate 10001 (FastOp.add oFast true))).totalOrders = 10001) ∧
    10000 < 10001 := by
  refine ⟨?_, ?_, by omega⟩
  · rw [runFast_replicate_add_total]; rfl
  · rw [runFast_replicate_add_total]; rfl

/-- Claim C2, amended: for `Orderbook` the claim holds — the total order
count never exceeds `max_total_orders` (default 10 000) over any operation
sequence, and an add issued at the cap is dropped, leaving the book
bit-for-bit unchanged. `FastOrderbook::add_order` enforces no such cap:
its total order count after `n` adds is exactly `n`, without bound. -/
theorem claim_C2 :
    (∀ (b0 : Orderbook) (ops : List BookOp),
      b0.orders.length ≤ b0.maxTotalOrders →
      (runBook b0 ops).orders.length ≤ b0.maxTotalOrders) ∧
    (∀ (marketId : Nat) (symbol : String) (ops : List BookOp),
      (runBook (Orderbook.new marketId symbol) ops).orders.length ≤ 10000) ∧
    (∀ (b : Orderbook) (o : Order), b.maxTotalOrders ≤ b.orders.length →
      b.add_order o = b) ∧
    (∀ (marketId : Nat) (symbol : String) (o : FOrder) (n : Nat),
      (runFast (FastOrderbook.new marketId symbol)
        (List.replicate n (FastOp.add o true))).totalOrders = n) := by
  refine ⟨?_, ?_, Orderbook.add_order_at_cap, ?_⟩
  · intro b0 ops h
    have := runBook_cap b0 ops h
    rw [← this.2]
    exact this.1
  · intro marketId symbol ops
    have := runBook_cap (Orderbook.new marketId symbol) ops (by simp [Orderbook.new])
    rw [← show (runBook (Orderbook.new marketId symbol) ops).maxTotalOrders = 10000
          from this.2]
    exact this.1
  · intro marketId symbol o n
    rw [runFast_replicate_add_total]
    simp [FastOrderbook.new]

/-- Witness for `claim_C2`: a book with cap 1 accepts a first order and
drops the second, leaving the state unchanged. -/
theorem claim_C2_witness :
    (Orderbook.with_limits 0 "BTC" 100 1000 1).orders.length
      ≤ (Orderbook.with_limits 0 "BTC" 100 1000 1).maxTotalOrders ∧
    (runBook (Orderbook.with_limits 0 "BTC" 100 1000 1)
        [BookOp.add oBuy, BookOp.add oBuy]).orders.length
      ≤ (Orderbook.with_limits 0 "BTC" 100 1000 1).maxTotalOrders ∧
    ((Orderbook.with_limits 0 "BTC" 100 1000 1).add_order oBuy).add_order
        { oBuy with id := 2 }
      = (Orderbook.with_limits 0 "BTC" 100 1000 1).add_order oBuy := by
  refine ⟨by decide, claim_C2.1 _ _ (by decide), ?_⟩
  exact claim_C2.2.2.1 _ _ (by decide)

/-! ## Claim C3 -/

/-- First bid, at price 1, on a book limited to one level per side. -/
def oEvict1 : Order := { id := 1, side := Side.Buy, price := 1, size := 1, timestamp := 0 }

/-- Second bid, at price 2: inserting it evicts the whole price-1 level. -/
def oEvict2 : Order := { id := 2, side := Side.Buy, price := 2, size := 1, timestamp := 0 }

/-- A book built with `with_limits(max_orders_per_level = 100,
max_levels_per_side = 1, max_total_orders = 10000)` after adding the two
bids above. -/
def bC3 : Orderbook :=
  ((Orderbook.with_limits 0 "T" 100 1 10000).add_order oEvict1).add_order oEvict2

/-- Claim C3 is right and the code is wrong: when `add_order` evicts a whole
price level to respect `max_levels_per_side` (orderbook.rs:74-87) it does
not remove the evicted orders from the `orders` location index — unlike the
per-level FIFO eviction right below it (orderbook.rs:94-96), which does.
After the eviction, id 1 is still in the index, claiming a resting bid at
price 1 (location key -1), but no side holds any order with id 1. -/
theorem claim_C3_bug :
    hmGet bC3.orders 1 = some ⟨Side.Buy, 1, 0⟩ ∧
    smGet bC3.bids (-1) = none ∧
    ((bC3.bids.map Prod.snd).flatten.filter (fun o => o.id = 1)) = [] ∧
    ((bC3.asks.map Prod.snd).flatten.filter (fun o => o.id = 1)) = [] := by
  refine ⟨by decide, by decide, by decide, by decide⟩

/-! ## Claim C9 -/

/-- Stop order of user "u" on market 1. -/
def sOrd1 : StopOrder :=
  { id := 1, user := "u", coin := "BTC", side := "B", price := 100, size := 1
    triggerCondition := "", timestamp := 0 }

/-- Stop order of the same user "u" on market 2. -/
def sOrd2 : StopOrder :=
  { id := 2, user := "u", coin := "HYPE", side := "B", price := 50, size := 1
    triggerCondition := "", timestamp := 0 }

/-- Registry holding `sOrd1` in market 1 and `sOrd2` in market 2, after
`remove_stop_order(2)`. -/
def stC9 : StopOrderManager :=
  (((StopOrderManager.new.add_stop_order 1 sOrd1).add_stop_order 2 sOrd2).remove_stop_order 2)

/-- Claim C9 is right and the code is wrong: `remove_stop_order` scans
`orders_by_market` and `break`s at the FIRST market whose user map contains
the order's user (stop_orders.rs:61-68) — here market 1, which does not
hold order 2. Order 2 is removed from the global map but stays in market
2's (user "u") slot, and both the by-market and the by-user queries still
return it. -/
theorem claim_C9_bug :
    hmGet stC9.allOrders 2 = none ∧
    (stC9.get_stop_orders_by_market 2).map StopOrder.id = [2] ∧
    ((stC9.get_stop_orders_by_user "u").map StopOrder.id).contains 2 = true ∧
    ((stC9.get_all_stop_orders).map StopOrder.id).contains 2 = false := by
  refine ⟨by decide, by decide, by decide, by decide⟩

/-! ## Claim C10 -/

theorem FOLevel.removeFirst_none (orders : List FOrder) (oid : Nat)
    (h : ∀ o ∈ orders, o.id ≠ oid) : FOLevel.removeFirst orders oid = none := by
  induction orders with
  | nil => rfl
  | cons o rest ih =>
    unfold FOLevel.removeFirst
    rw [if_neg (h o (by simp))]
    rw [ih (fun o' ho' => h o' (by simp [ho']))]

theorem FOLevel.remove_order_none (l : FOLevel) (oid : Nat)
    (h : ∀ o ∈ l.orders, o.id ≠ oid) : l.remove_order oid = none := by
  unfold FOLevel.remove_order
  rw [FOLevel.removeFirst_none l.orders oid h]

theorem removeFromSide_none (levels : List FOLevel) (oid : Nat) (price : ℚ)
    (h : ∀ l ∈ levels, l.price = price → ∀ o ∈ l.orders, o.id ≠ oid) :
    FastOrderbook.removeFromSide levels oid price = none := by
  induction levels with
  | nil => rfl
  | cons l rest ih =>
    unfold FastOrderbook.removeFromSide
    by_cases hp : l.price = price
    · rw [if_pos hp, FOLevel.remove_order_none l oid (h l (by simp) hp)]
    · rw [if_neg hp, ih (fun l' hl' => h l' (by simp [hl']))]

/-- Claim C10, confirmed: when no order with the given id rests at the
given price on the given side, `FastOrderbook::remove_order` returns
`None` and the resulting book is the original with only the sequence
counter incremented by exactly 1 (levels, level counters and the total
order count untouched). -/
theorem claim_C10 (b : FastOrderbook) (oid : Nat) (price : ℚ) (isBuy : Bool)
    (h : ∀ l ∈ (if isBuy then b.bidLevels else b.askLevels),
      l.price = price → ∀ o ∈ l.orders, o.id ≠ oid) :
    b.remove_order oid price isBuy = ({ b with sequence := b.sequence + 1 }, none) := by
  unfold FastOrderbook.remove_order
  cases isBuy with
  | true =>
    simp only [if_pos] at h ⊢
    rw [removeFromSide_none b.bidLevels oid price h]
  | false =>
    simp only [Bool.false_eq_true, if_false, if_neg] at h ⊢
    rw [removeFromSide_none b.askLevels oid price h]

/-- Witness for `claim_C10`: a book holding one bid at price 100; removing
the unknown id 99 at price 100 bumps only the sequence. -/
theorem claim_C10_witness :
    (∀ l ∈ (if true then ((FastOrderbook.new 0 "BTC").add_order oFast true).1.bidLevels
              else ((FastOrderbook.new 0 "BTC").add_order oFast true).1.askLevels),
      l.price = 100 → ∀ o ∈ l.orders, o.id ≠ 99) ∧
    ((FastOrderbook.new 0 "BTC").add_order oFast true).1.remove_order 99 100 true
      = ({ ((FastOrderbook.new 0 "BTC").add_order oFast true).1 with
            sequence := ((FastOrderbook.new 0 "BTC").add_order oFast true).1.sequence + 1 },
         none) :=
  ⟨by decide, claim_C10 _ 99 100 true (by decide)⟩

/-! ## Claim C8 -/

theorem walkFill_full (levels : List (ℚ × ℚ)) (remaining cost filled : ℚ)
    (hnn : ∀ pr ∈ levels, 0 ≤ pr.2) (h0 : 0 ≤ remaining)
    (hsum : remaining ≤ (levels.map Prod.snd).sum) :
    (StopOrderManager.walkFill levels remaining cost filled).1 = 0 ∧
    (StopOrderManager.walkFill levels remaining cost filled).2.2 = filled + remaining := by
  induction levels generalizing remaining cost filled with
  | nil =>
    simp only [List.map_nil, List.sum_nil] at hsum
    have hz : remaining = 0 := le_antisymm hsum h0
    simp [StopOrderManager.walkFill, hz]
  | cons pr rest ih =>
    obtain ⟨p, s⟩ := pr
    have hs : 0 ≤ s := hnn (p, s) (by simp)
    have hrest : ∀ pr ∈ rest, 0 ≤ pr.2 := fun pr hpr => hnn pr (by simp [hpr])
    have hrestsum : 0 ≤ (rest.map Prod.snd).sum :=
      List.sum_nonneg (by
        intro x hx
        obtain ⟨pr, hpr, hpx⟩ := List.mem_map.1 hx
        exact hpx ▸ hrest pr hpr)
    unfold StopOrderManager.walkFill
    by_cases hr : remaining ≤ 0
    · have hz : remaining = 0 := le_antisymm hr h0
      simp [hz]
    · rw [if_neg hr]
      have hfill0 : 0 ≤ min remaining s := le_min (le_of_not_le hr) hs
      have hfill_le : min remaining s ≤ remaining := min_le_left _ _
      have hsum' : remaining - min remaining s ≤ (rest.map Prod.snd).sum := by
        simp only [List.map_cons, List.sum_cons] at hsum
        rcases le_total s remaining with hc | hc
        · rw [min_eq_right hc]; linarith
        · rw [min_eq_left hc]; linarith
      have := ih (remaining - min remaining s) (cost + min remaining s * p)
        (filled + min remaining s) hrest (by linarith) hsum'
      refine ⟨this.1, ?_⟩
      rw [this.2]; ring

theorem walkFill_filled_mono (levels : List (ℚ × ℚ)) (remaining cost filled : ℚ)
    (hnn : ∀ pr ∈ levels, 0 ≤ pr.2) (h0 : 0 ≤ remaining) :
    filled ≤ (StopOrderManager.walkFill levels remaining cost filled).2.2 := by
  induction levels generalizing remaining cost filled with
  | nil => exact le_refl _
  | cons pr rest ih =>
    obtain ⟨p, s⟩ := pr
    have hs : 0 ≤ s := hnn (p, s) (by simp)
    have hrest : ∀ pr ∈ rest, 0 ≤ pr.2 := fun pr hpr => hnn pr (by simp [hpr])
    unfold StopOrderManager.walkFill
    by_cases hr : remaining ≤ 0
    · rw [if_pos hr]
    · rw [if_neg hr]
      have hfill0 : 0 ≤ min remaining s := le_min (le_of_not_le hr) hs
      have := ih (remaining - min remaining s) (cost + min remaining s * p)
        (filled + min remaining s) hrest (by simp [min_le_left])
      linarith

theorem walkFill_zero_iff (levels : List (ℚ × ℚ)) (remaining cost filled : ℚ)
    (hnn : ∀ pr ∈ levels, 0 ≤ pr.2) (h0 : 0 < remaining) :
    ((StopOrderManager.walkFill levels remaining cost filled).2.2 = filled ↔
      ∀ pr ∈ levels, pr.2 = 0) := by
  induction levels generalizing remaining cost filled with
  | nil => simp [StopOrderManager.walkFill]
  | cons pr rest ih =>
    obtain ⟨p, s⟩ := pr
    have hs : 0 ≤ s := hnn (p, s) (by simp)
    have hrest : ∀ pr ∈ rest, 0 ≤ pr.2 := fun pr hpr => hnn pr (by simp [hpr])
    unfold StopOrderManager.walkFill
    rw [if_neg (not_le.2 h0)]
    rcases eq_or_lt_of_le hs with hz | hpos
    · have hmin : min remaining s = 0 := by rw [← hz, min_eq_right (le_of_lt h0)]
      rw [hmin]
      simp only [sub_zero, add_zero]
      rw [ih remaining (cost + 0 * p) filled hrest h0]
      constructor
      · intro hall pr hpr
        rcases List.mem_cons.1 hpr with he | hm
        · rw [he]; exact hz.symm
        · exact hall pr hm
      · intro hall pr hpr
        exact hall pr (by simp [hpr])
    · have hmin : 0 < min remaining s := lt_min h0 hpos
      have hmono := walkFill_filled_mono rest (remaining - min remaining s)
        (cost + min remaining s * p) (filled + min remaining s) hrest
        (by simp [min_le_left])
      constructor
      · intro hfin
        exact absurd hfin (by linarith)
      · intro hall
        have : s = 0 := hall (p, s) (by simp)
        exact absurd this (by linarith)

/-- The stop order used in C8's counterexample: size 2, trigger price 100. -/
def sOrdC8 : StopOrder :=
  { id := 3, user := "u", coin := "BTC", side := "B", price := 100, size := 2
    triggerCondition := "", timestamp := 0 }

/-- Claim C8, as stated, is false: against a single level (price 100, size
1) the book cannot fill the size-2 order — liquidity is insufficient — yet
`calculate_slippage` does not return the 1000 bps sentinel; it fills the
available 1 unit at 100 (the trigger price) and returns 0 bps. The
sentinel is used only when nothing at all fills. -/
theorem claim_C8_cex :
    (([((100:ℚ), (1:ℚ))]).map Prod.snd).sum < sOrdC8.size ∧
    StopOrderManager.calculate_slippage sOrdC8 [((100:ℚ), (1:ℚ))] true = 0 ∧
    ((0:ℚ) ≠ 1000) := by
  refine ⟨by norm_num [sOrdC8], ?_, by norm_num⟩
  norm_num [StopOrderManager.calculate_slippage, StopOrderManager.walkFill,
    sOrdC8, min_def]

/-- Claim C8, amended: with nonnegative level sizes, a positive order size
and a positive trigger price, (i) when the levels hold enough liquidity the
walk fills the full order size and the slippage is the deviation in bps of
the volume-weighted average fill price from the order's price; (ii) the
walk fills nothing exactly when every level size is 0; and (iii) only in
that case — not merely on insufficient liquidity — is the slippage the
1000 bps sentinel (a partial fill yields the VWAP deviation of the filled
portion instead). -/
theorem claim_C8 (order : StopOrder) (levels : List (ℚ × ℚ)) (isBuy : Bool)
    (hnn : ∀ pr ∈ levels, 0 ≤ pr.2) (hsz : 0 < order.size) (hp : 0 < order.price) :
    (order.size ≤ (levels.map Prod.snd).sum →
      (StopOrderManager.walkFill levels order.size 0 0).2.2 = order.size ∧
      StopOrderManager.calculate_slippage order levels isBuy =
        |(StopOrderManager.walkFill levels order.size 0 0).2.1 / order.size - order.price|
          / order.price * 10000) ∧
    ((StopOrderManager.walkFill levels order.size 0 0).2.2 = 0 ↔
      ∀ pr ∈ levels, pr.2 = 0) ∧
    ((∀ pr ∈ levels, pr.2 = 0) →
      StopOrderManager.calculate_slippage order levels isBuy = 1000) := by
  have hiff := walkFill_zero_iff levels order.size 0 0 hnn hsz
  refine ⟨?_, hiff, ?_⟩
  · intro hsum
    have hfull := walkFill_full levels order.size 0 0 hnn (le_of_lt hsz) hsum
    have hfilled : (StopOrderManager.walkFill levels order.size 0 0).2.2 = order.size := by
      rw [hfull.2]; ring
    refine ⟨hfilled, ?_⟩
    unfold StopOrderManager.calculate_slippage
    dsimp only
    rw [hfilled, if_pos hsz]
  · intro hall
    have hfilled : (StopOrderManager.walkFill levels order.size 0 0).2.2 = 0 :=
      hiff.2 hall
    unfold StopOrderManager.calculate_slippage
    dsimp only
    rw [hfilled, if_neg (lt_irrefl 0)]

/-- The stop order used in C8's witness: size 1, trigger price 100. -/
def sOrdW : StopOrder :=
  { id := 4, user := "u", coin := "BTC", side := "B", price := 100, size := 1
    triggerCondition := "", timestamp := 0 }

/-- Witness for `claim_C8`: one level (price 100, size 5) fully fills the
size-1 order. -/
theorem claim_C8_witness :
    (∀ pr ∈ [((100:ℚ), (5:ℚ))], 0 ≤ pr.2) ∧ 0 < sOrdW.size ∧ 0 < sOrdW.price ∧
    sOrdW.size ≤ (([((100:ℚ), (5:ℚ))]).map Prod.snd).sum ∧
    (StopOrderManager.walkFill [((100:ℚ), (5:ℚ))] sOrdW.size 0 0).2.2 = sOrdW.size :=
  ⟨by decide, by decide, by decide, by norm_num [sOrdW],
   ((claim_C8 sOrdW [((100:ℚ), (5:ℚ))] true (by decide) (by decide) (by decide)).1
     (by norm_num [sOrdW])).1⟩

/-! ## Claim C5 -/

/-- The three numeric guards of `validate_order` pass exactly on finite,
positive, in-bound values. -/
theorem F64.good_of_guards (x : F64) (mx : ℚ)
    (h1 : ¬ x.le (F64.finite 0) = true)
    (h2 : ¬ (F64.finite mx).lt x = true)
    (h3 : ¬ (x.isNan = true ∨ x.isInfinite = true)) :
    ∃ q, x = F64.finite q ∧ 0 < q ∧ q ≤ mx := by
  cases x with
  | nan => exact absurd (Or.inl rfl) h3
  | inf => exact absurd (Or.inr rfl) h3
  | neginf => exact absurd rfl h1
  | finite q =>
    refine ⟨q, rfl, ?_, ?_⟩
    · simp [F64.le] at h1
      linarith
    · simp [F64.lt] at h2
      linarith

theorem validate_ok_iff (p : OrderParser) (msg : OrderMessage) :
    (∃ v, p.validate_order msg = Except.ok v) ↔
      ((∃ q, msg.order.limitPx = F64.finite q ∧ 0 < q ∧ q ≤ p.maxPrice) ∧
       (∃ q, msg.order.sz = F64.finite q ∧ 0 < q ∧ q ≤ p.maxSize) ∧
       msg.order.coin ≠ "" ∧
       msg.order.coin.utf8ByteSize ≤ 20 ∧
       (∀ allowed, p.allowedCoins = some allowed → msg.order.coin ∈ allowed) ∧
       (msg.order.side = "B" ∨ msg.order.side = "A")) := by
  constructor
  · rintro ⟨v, hv⟩
    unfold OrderParser.validate_order at hv
    by_cases h1 : msg.order.limitPx.le (F64.finite 0) = true
    · rw [if_pos h1] at hv; exact absurd hv (by simp)
    rw [if_neg h1] at hv
    by_cases h2 : (F64.finite p.maxPrice).lt msg.order.limitPx = true
    · rw [if_pos h2] at hv; exact absurd hv (by simp)
    rw [if_neg h2] at hv
    by_cases h3 : msg.order.limitPx.isNan = true ∨ msg.order.limitPx.isInfinite = true
    · rw [if_pos h3] at hv; exact absurd hv (by simp)
    rw [if_neg h3] at hv
    by_cases h4 : msg.order.sz.le (F64.finite 0) = true
    · rw [if_pos h4] at hv; exact absurd hv (by simp)
    rw [if_neg h4] at hv
    by_cases h5 : (F64.finite p.maxSize).lt msg.order.sz = true
    · rw [if_pos h5] at hv; exact absurd hv (by simp)
    rw [if_neg h5] at hv
    by_cases h6 : msg.order.sz.isNan = true ∨ msg.order.sz.isInfinite = true
    · rw [if_pos h6] at hv; exact absurd hv (by simp)
    rw [if_neg h6] at hv
    by_cases h7 : msg.order.coin = ""
    · rw [if_pos h7] at hv; exact absurd hv (by simp)
    rw [if_neg h7] at hv
    by_cases h8 : 20 < msg.order.coin.utf8ByteSize
    · rw [if_pos h8] at hv; exact absurd hv (by simp)
    rw [if_neg h8] at hv
    by_cases h9 : OrderParser.coinBlocked p.allowedCoins msg.order.coin = true
    · rw [if_pos h9] at hv; exact absurd hv (by simp)
    rw [if_neg h9] at hv
    have hside : msg.order.side = "B" ∨ msg.order.side = "A" := by
      by_contra hc
      push_neg at hc
      rw [if_neg hc.1, if_neg hc.2] at hv
      exact absurd hv (by simp)
    refine ⟨F64.good_of_guards _ _ h1 h2 h3, F64.good_of_guards _ _ h4 h5 h6,
      h7, by omega, ?_, hside⟩
    intro allowed hall
    rw [show p.allowedCoins = some allowed from hall] at h9
    simpa [OrderParser.coinBlocked] using h9
  · rintro ⟨⟨q, hq, hq0, hqm⟩, ⟨r, hr, hr0, hrm⟩, hcoin, hlen, hallow, hside⟩
    unfold OrderParser.validate_order
    rw [hq, hr]
    rw [if_neg (by simp [F64.le]; linarith)]
    rw [if_neg (by simp [F64.lt]; linarith)]
    rw [if_neg (by simp [F64.isNan, F64.isInfinite])]
    rw [if_neg (by simp [F64.le]; linarith)]
    rw [if_neg (by simp [F64.lt]; linarith)]
    rw [if_neg (by simp [F64.isNan, F64.isInfinite])]
    rw [if_neg hcoin]
    rw [if_neg (by omega)]
    rw [if_neg (by
      cases hac : p.allowedCoins with
      | none => simp [OrderParser.coinBlocked]
      | some allowed => simpa [OrderParser.coinBlocked] using hallow allowed hac)]
    rcases hside with hsB | hsA
    · rw [if_pos hsB]
      exact ⟨_, rfl⟩
    · by_cases hsB : msg.order.side = "B"
      · rw [if_pos hsB]
        exact ⟨_, rfl⟩
      · rw [if_neg hsB, if_pos hsA]
        exact ⟨_, rfl⟩

/-- Claim C5, confirmed: `parse_line` yields a validated order exactly when
the decoded price and size are finite, positive and within the configured
bounds, the coin is non-empty, at most 20 bytes, in the allow-list when one
is configured, and the side is exactly "B" or "A"; a failed JSON decode
yields an error as well. -/
theorem claim_C5 :
    (∀ (p : OrderParser) (msg : OrderMessage),
      (∃ v, p.parse_line (some msg) = Except.ok v) ↔
        ((∃ q, msg.order.limitPx = F64.finite q ∧ 0 < q ∧ q ≤ p.maxPrice) ∧
         (∃ q, msg.order.sz = F64.finite q ∧ 0 < q ∧ q ≤ p.maxSize) ∧
         msg.order.coin ≠ "" ∧
         msg.order.coin.utf8ByteSize ≤ 20 ∧
         (∀ allowed, p.allowedCoins = some allowed → msg.order.coin ∈ allowed) ∧
         (msg.order.side = "B" ∨ msg.order.side = "A"))) ∧
    (∀ p : OrderParser, p.parse_line none = Except.error "Failed to parse JSON") :=
  ⟨fun p msg => validate_ok_iff p msg, fun _ => rfl⟩

/-! ## Claim C6 -/

/-- Claim C6, confirmed: per market, `record_market_failure` in Closed
increments `consecutive_failures` and trips to Open at `failure_threshold`;
in HalfOpen it re-opens with a fresh timer (`since = now`).
`record_market_success` in HalfOpen increments `consecutive_successes` and
closes (failures reset to 0) at `success_threshold`; in Open it leaves the
state Open. A breaker for another market is never touched. -/
theorem claim_C6 (cfg : CircuitBreakerConfig) (m : BreakerMap)
    (marketId now : Nat) (reason : String) :
    (∀ n, (m marketId).state = CircuitState.Closed n → n + 1 < cfg.failureThreshold →
      ((record_market_failure cfg m marketId now reason) marketId).state
        = CircuitState.Closed (n + 1)) ∧
    (∀ n, (m marketId).state = CircuitState.Closed n → cfg.failureThreshold ≤ n + 1 →
      ((record_market_failure cfg m marketId now reason) marketId).state
        = CircuitState.Open now reason) ∧
    (∀ k, (m marketId).state = CircuitState.HalfOpen k →
      ((record_market_failure cfg m marketId now reason) marketId).state
        = CircuitState.Open now reason) ∧
    (∀ n, (m marketId).state = CircuitState.HalfOpen n → n + 1 < cfg.successThreshold →
      ((record_market_success cfg m marketId) marketId).state
        = CircuitState.HalfOpen (n + 1)) ∧
    (∀ n, (m marketId).state = CircuitState.HalfOpen n → cfg.successThreshold ≤ n + 1 →
      ((record_market_success cfg m marketId) marketId).state
        = CircuitState.Closed 0) ∧
    (∀ since r, (m marketId).state = CircuitState.Open since r →
      ((record_market_success cfg m marketId) marketId).state
        = CircuitState.Open since r) ∧
    (∀ k, k ≠ marketId →
      (record_market_failure cfg m marketId now reason) k = m k ∧
      (record_market_success cfg m marketId) k = m k) := by
  refine ⟨?_, ?_, ?_, ?_, ?_, ?_, ?_⟩
  · intro n hst hlt
    simp [record_market_failure, failureStep, hst, not_le.mpr hlt]
  · intro n hst hge
    simp [record_market_failure, failureStep, hst, hge]
  · intro k hst
    simp [record_market_failure, failureStep, hst]
  · intro n hst hlt
    simp [record_market_success, successStep, hst, not_le.mpr hlt]
  · intro n hst hge
    simp [record_market_success, successStep, hst, hge]
  · intro since r hst
    simp [record_market_success, successStep, hst]
  · intro k hk
    exact ⟨by simp [record_market_failure, hk], by simp [record_market_success, hk]⟩

/-- Witness for `claim_C6`: on a fresh map (all breakers Closed with 0
consecutive failures) and the default config, one failure for market 7
moves its breaker to Closed 1. -/
theorem claim_C6_witness :
    (freshBreakers 7).state = CircuitState.Closed 0 ∧
    0 + 1 < defaultCircuitBreakerConfig.failureThreshold ∧
    ((record_market_failure defaultCircuitBreakerConfig freshBreakers 7 5 "r") 7).state
      = CircuitState.Closed 1 :=
  ⟨rfl, by decide,
   (claim_C6 defaultCircuitBreakerConfig freshBreakers 7 5 "r").1 0 rfl (by decide)⟩

/-! ## Claim C7 -/

/-- Once updated, the fallback EMA has a positive denominator (first sample
sets it to 1; afterwards `den * decay + t > 0` since `decay = exp(…) > 0`
and `t ≥ 0`). -/
theorem ema_update_den_pos (e : EMACalculator) (sample decay t : ℚ)
    (hInit : e.initialized = true → 0 < e.denominator)
    (hd : 0 < decay) (ht : 0 ≤ t) :
    0 < (e.update sample decay t).2.denominator := by
  unfold EMACalculator.update
  dsimp only
  by_cases hi : e.initialized = true
  · rw [if_pos hi]
    have := mul_pos (hInit hi) hd
    dsimp only
    linarith
  · rw [if_neg hi]
    norm_num

/-- Claim C7, confirmed: the fallback mid-EMA is appended as a third median
input, and `used_fallback` is set, exactly when two of the three median
inputs (oracle-adjusted, internal median, CEX weighted median) are present;
with one or three inputs present no fallback is appended. The hypotheses
say the calculator state is reachable (`den > 0` once initialized) and that
elapsed time and decay are a real duration and a real exponential. -/
theorem claim_C7 (c : HLMarkPriceCalculator) (inputs : MarkPriceInputs)
    (decayO tO decayF tF : ℚ)
    (hInit : c.fallbackMidEma.initialized = true → 0 < c.fallbackMidEma.denominator)
    (hd : 0 < decayF) (ht : 0 ≤ tF) :
    ((c.calculate_mark_price inputs decayO tO decayF tF).1.usedFallback = true ↔
      ((c.calculate_mark_price inputs decayO tO decayF tF).1.oracleAdjusted.toList ++
        [(c.calculate_mark_price inputs decayO tO decayF tF).1.internalMedian] ++
        (c.calculate_mark_price inputs decayO tO decayF tF).1.cexMedian.toList).length = 2) ∧
    ((c.calculate_mark_price inputs decayO tO decayF tF).1.oracleAdjusted.isSome
      = inputs.oraclePrice.isSome) ∧
    ((c.calculate_mark_price inputs decayO tO decayF tF).1.cexMedian
      = inputs.cexPrices.bind calculate_cex_weighted_median) ∧
    ((c.calculate_mark_price inputs decayO tO decayF tF).1.usedFallback = true →
      (c.calculate_mark_price inputs decayO tO decayF tF).1.markPrice =
        calculate_median
          ((c.calculate_mark_price inputs decayO tO decayF tF).1.oracleAdjusted.toList ++
           [(c.calculate_mark_price inputs decayO tO decayF tF).1.internalMedian] ++
           (c.calculate_mark_price inputs decayO tO decayF tF).1.cexMedian.toList ++
           [(c.fallbackMidEma.update ((inputs.bestBid + inputs.bestAsk) / 2) decayF tF).2.numerator /
            (c.fallbackMidEma.update ((inputs.bestBid + inputs.bestAsk) / 2) decayF tF).2.denominator])) ∧
    ((c.calculate_mark_price inputs decayO tO decayF tF).1.usedFallback = false →
      (c.calculate_mark_price inputs decayO tO decayF tF).1.markPrice =
        calculate_median
          ((c.calculate_mark_price inputs decayO tO decayF tF).1.oracleAdjusted.toList ++
           [(c.calculate_mark_price inputs decayO tO decayF tF).1.internalMedian] ++
           (c.calculate_mark_price inputs decayO tO decayF tF).1.cexMedian.toList)) := by
  obtain ⟨bb, ba, ltO, opO, cpO⟩ := inputs
  have hpos : 0 < ((c.fallbackMidEma.update ((bb + ba) / 2) decayF tF).2).denominator :=
    ema_update_den_pos _ _ _ _ hInit hd ht
  rcases cpO with _ | cex
  · rcases ltO with _ | lt <;> rcases opO with _ | op <;>
      simp [HLMarkPriceCalculator.calculate_mark_price, EMACalculator.get_value, hpos]
  · rcases hcw : calculate_cex_weighted_median cex with _ | cm <;>
      rcases ltO with _ | lt <;> rcases opO with _ | op <;>
      simp [HLMarkPriceCalculator.calculate_mark_price, EMACalculator.get_value,
        hpos, hcw]

/-- Inputs with an oracle price but no CEX prices: two median inputs. -/
def inpW : MarkPriceInputs :=
  { bestBid := 99, bestAsk := 101, lastTrade := none, oraclePrice := some 100
    cexPrices := none }

/-- Witness for `claim_C7`: on a fresh calculator with oracle present and
CEX absent (two median inputs), `used_fallback` comes out true. -/
theorem claim_C7_witness :
    HLMarkPriceCalculator.new.fallbackMidEma.initialized = false ∧
    (0:ℚ) < 1 ∧ (0:ℚ) ≤ 0 ∧
    (HLMarkPriceCalculator.new.calculate_mark_price inpW 1 0 1 0).1.usedFallback = true := by
  have h := claim_C7 HLMarkPriceCalculator.new inpW 1 0 1 0
    (fun hh => absurd hh (by decide)) (by norm_num) (le_refl 0)
  refine ⟨rfl, by norm_num, le_refl 0, ?_⟩
  obtain ⟨a, ha⟩ := Option.isSome_iff_exists.mp (by rw [h.2.1]; rfl)
  refine h.1.mpr ?_
  rw [ha]
  have hcm : (HLMarkPriceCalculator.new.calculate_mark_price inpW 1 0 1 0).1.cexMedian
      = none := by
    rw [h.2.2.1]
    rfl
  rw [hcm]
  rfl

/-! ## Claim C4: sortedness invariants -/

theorem mem_smInsert {ν : Type} (m : List (ℚ × ν)) (k : ℚ) (v : ν) :
    ∀ x ∈ smInsert m k v, x.1 = k ∨ x ∈ m := by
  induction m with
  | nil =>
    intro x hx
    simp [smInsert] at hx
    exact Or.inl (by rw [hx])
  | cons hd tl ih =>
    obtain ⟨k', v'⟩ := hd
    intro x hx
    unfold smInsert at hx
    by_cases h1 : k < k'
    · rw [if_pos h1] at hx
      rcases List.mem_cons.1 hx with rfl | hx'
      · exact Or.inl rfl
      · exact Or.inr hx'
    · rw [if_neg h1] at hx
      by_cases h2 : k = k'
      · rw [if_pos h2] at hx
        rcases List.mem_cons.1 hx with rfl | hx'
        · exact Or.inl rfl
        · exact Or.inr (List.mem_cons_of_mem _ hx')
      · rw [if_neg h2] at hx
        rcases List.mem_cons.1 hx with rfl | hx'
        · exact Or.inr (List.mem_cons_self _ _)
        · rcases ih x hx' with hk | hm
          · exact Or.inl hk
          · exact Or.inr (List.mem_cons_of_mem _ hm)

theorem sortedKeys_smInsert {ν : Type} {m : List (ℚ × ν)} (h : SortedKeys m)
    (k : ℚ) (v : ν) : SortedKeys (smInsert m k v) := by
  induction m with
  | nil => simp [smInsert, SortedKeys]
  | cons hd tl ih =>
    obtain ⟨k', v'⟩ := hd
    rw [SortedKeys, List.pairwise_cons] at h
    unfold smInsert
    by_cases h1 : k < k'
    · rw [if_pos h1]
      refine List.Pairwise.cons ?_ (List.pairwise_cons.mpr h)
      intro b hb
      rcases List.mem_cons.1 hb with rfl | hb'
      · exact h1
      · exact lt_trans h1 (h.1 b hb')
    · rw [if_neg h1]
      by_cases h2 : k = k'
      · rw [if_pos h2]
        refine List.Pairwise.cons ?_ h.2
        intro b hb
        rw [h2]
        exact h.1 b hb
      · rw [if_neg h2]
        refine List.Pairwise.cons ?_ (ih h.2)
        intro b hb
        rcases mem_smInsert tl k v b hb with hbk | hbtl
        · rw [hbk]
          exact lt_of_le_of_ne (le_of_not_lt h1) (fun he => h2 he.symm)
        · exact h.1 b hbtl

theorem smRemove_sublist {ν : Type} (m : List (ℚ × ν)) (k : ℚ) :
    List.Sublist (smRemove m k) m := by
  induction m with
  | nil => exact List.Sublist.refl _
  | cons hd tl ih =>
    obtain ⟨k', v'⟩ := hd
    unfold smRemove
    by_cases h : k' = k
    · rw [if_pos h]
      exact List.sublist_cons_self _ _
    · rw [if_neg h]
      exact List.Sublist.cons₂ _ ih

theorem sortedKeys_sublist {ν : Type} {m m' : List (ℚ × ν)}
    (hs : List.Sublist m' m) (h : SortedKeys m) : SortedKeys m' :=
  List.Pairwise.sublist hs h

theorem Orderbook.add_order_sorted (b : Orderbook) (o : Order)
    (h : SortedBook b) : SortedBook (b.add_order o) := by
  unfold Orderbook.add_order
  by_cases hcap : b.maxTotalOrders ≤ b.orders.length
  · rw [if_pos hcap]
    exact h
  rw [if_neg hcap]
  dsimp only
  by_cases hside : o.side = Side.Buy
  · simp only [if_pos hside]
    refine ⟨?_, h.2⟩
    apply sortedKeys_smInsert
    split
    · exact sortedKeys_sublist (List.dropLast_sublist _) h.1
    · exact h.1
  · simp only [if_neg hside]
    refine ⟨h.1, ?_⟩
    apply sortedKeys_smInsert
    split
    · exact sortedKeys_sublist (List.dropLast_sublist _) h.2
    · exact h.2

theorem Orderbook.cancel_order_sorted (b : Orderbook) (oid : Nat)
    (h : SortedBook b) : SortedBook (b.cancel_order oid) := by
  unfold Orderbook.cancel_order
  dsimp only
  split
  · exact h
  rename_i loc _
  by_cases hside : loc.side = Side.Buy
  · simp only [if_pos hside]
    refine ⟨?_, h.2⟩
    split
    · exact h.1
    split
    · split
      · exact sortedKeys_sublist (smRemove_sublist _ _) h.1
      · exact sortedKeys_smInsert h.1 _ _
    · exact h.1
  · simp only [if_neg hside]
    refine ⟨h.1, ?_⟩
    split
    · exact h.2
    split
    · split
      · exact sortedKeys_sublist (smRemove_sublist _ _) h.2
      · exact sortedKeys_smInsert h.2 _ _
    · exact h.2

theorem Orderbook.clear_sorted (b : Orderbook) : SortedBook b.clear :=
  ⟨List.Pairwise.nil, List.Pairwise.nil⟩

theorem applyBookOp_sorted (b : Orderbook) (op : BookOp) (h : SortedBook b) :
    SortedBook (applyBookOp b op) := by
  cases op with
  | add o => exact Orderbook.add_order_sorted b o h
  | cancel oid => exact Orderbook.cancel_order_sorted b oid h
  | clear => exact Orderbook.clear_sorted b

theorem runBook_sorted (b : Orderbook) (ops : List BookOp) (h : SortedBook b) :
    SortedBook (runBook b ops) := by
  induction ops generalizing b with
  | nil => exact h
  | cons op rest ih => exact ih (applyBookOp b op) (applyBookOp_sorted b op h)

theorem insertBid_price_mem (o : FOrder) (ls : List FOLevel) :
    ∀ q ∈ ((FastOrderbook.insertBid o ls).1.map FOLevel.price),
      q = o.price ∨ q ∈ ls.map FOLevel.price := by
  induction ls with
  | nil =>
    intro q hq
    simp [FastOrderbook.insertBid] at hq
    exact Or.inl (by rw [hq]; rfl)
  | cons l rest ih =>
    intro q hq
    unfold FastOrderbook.insertBid at hq
    by_cases h1 : l.price = o.price
    · rw [if_pos h1] at hq
      dsimp only at hq
      rw [List.map_cons] at hq
      rcases List.mem_cons.1 hq with rfl | hq'
      · exact Or.inl h1
      · exact Or.inr (by simp [hq'])
    · rw [if_neg h1] at hq
      by_cases h2 : l.price < o.price
      · rw [if_pos h2] at hq
        dsimp only at hq
        rw [List.map_cons] at hq
        rcases List.mem_cons.1 hq with rfl | hq'
        · exact Or.inl rfl
        · exact Or.inr hq'
      · rw [if_neg h2] at hq
        dsimp only at hq
        rw [List.map_cons] at hq
        rcases List.mem_cons.1 hq with rfl | hq'
        · exact Or.inr (by simp)
        · rcases ih q hq' with ho | hm
          · exact Or.inl ho
          · exact Or.inr (by simp [hm])

theorem insertAsk_price_mem (o : FOrder) (ls : List FOLevel) :
    ∀ q ∈ ((FastOrderbook.insertAsk o ls).1.map FOLevel.price),
      q = o.price ∨ q ∈ ls.map FOLevel.price := by
  induction ls with
  | nil =>
    intro q hq
    simp [FastOrderbook.insertAsk] at hq
    exact Or.inl (by rw [hq]; rfl)
  | cons l rest ih =>
    intro q hq
    unfold FastOrderbook.insertAsk at hq
    by_cases h1 : l.price = o.price
    · rw [if_pos h1] at hq
      dsimp only at hq
      rw [List.map_cons] at hq
      rcases List.mem_cons.1 hq with rfl | hq'
      · exact Or.inl h1
      · exact Or.inr (by simp [hq'])
    · rw [if_neg h1] at hq
      by_cases h2 : o.price < l.price
      · rw [if_pos h2] at hq
        dsimp only at hq
        rw [List.map_cons] at hq
        rcases List.mem_cons.1 hq with rfl | hq'
        · exact Or.inl rfl
        · exact Or.inr hq'
      · rw [if_neg h2] at hq
        dsimp only at hq
        rw [List.map_cons] at hq
        rcases List.mem_cons.1 hq with rfl | hq'
        · exact Or.inr (by simp)
        · rcases ih q hq' with ho | hm
          · exact Or.inl ho
          · exact Or.inr (by simp [hm])

theorem insertBid_sorted (o : FOrder) (ls : List FOLevel)
    (h : (ls.map FOLevel.price).Pairwise (fun a b => b < a)) :
    (((FastOrderbook.insertBid o ls).1).map FOLevel.price).Pairwise (fun a b => b < a) := by
  induction ls with
  | nil => simp [FastOrderbook.insertBid]
  | cons l rest ih =>
    rw [List.map_cons, List.pairwise_cons] at h
    unfold FastOrderbook.insertBid
    by_cases h1 : l.price = o.price
    · rw [if_pos h1]
      dsimp only
      rw [List.map_cons]
      rw [show (l.add_order o).price = l.price from rfl]
      exact List.pairwise_cons.mpr h
    · rw [if_neg h1]
      by_cases h2 : l.price < o.price
      · rw [if_pos h2]
        dsimp only
        rw [List.map_cons, List.map_cons]
        refine List.pairwise_cons.mpr ⟨?_, List.pairwise_cons.mpr h⟩
        intro q hq
        rcases List.mem_cons.1 hq with rfl | hq'
        · exact h2
        · exact lt_trans (h.1 q hq') h2
      · rw [if_neg h2]
        dsimp only
        rw [List.map_cons]
        refine List.pairwise_cons.mpr ⟨?_, ih h.2⟩
        intro q hq
        rcases insertBid_price_mem o rest q hq with rfl | hq'
        · exact lt_of_le_of_ne (le_of_not_lt h2) (fun he => h1 he.symm)
        · exact h.1 q hq'

theorem insertAsk_sorted (o : FOrder) (ls : List FOLevel)
    (h : (ls.map FOLevel.price).Pairwise (fun a b => a < b)) :
    (((FastOrderbook.insertAsk o ls).1).map FOLevel.price).Pairwise (fun a b => a < b) := by
  induction ls with
  | nil => simp [FastOrderbook.insertAsk]
  | cons l rest ih =>
    rw [List.map_cons, List.pairwise_cons] at h
    unfold FastOrderbook.insertAsk
    by_cases h1 : l.price = o.price
    · rw [if_pos h1]
      dsimp only
      rw [List.map_cons]
      rw [show (l.add_order o).price = l.price from rfl]
      exact List.pairwise_cons.mpr h
    · rw [if_neg h1]
      by_cases h2 : o.price < l.price
      · rw [if_pos h2]
        dsimp only
        rw [List.map_cons, List.map_cons]
        refine List.pairwise_cons.mpr ⟨?_, List.pairwise_cons.mpr h⟩
        intro q hq
        rcases List.mem_cons.1 hq with rfl | hq'
        · exact h2
        · exact lt_trans h2 (h.1 q hq')
      · rw [if_neg h2]
        dsimp only
        rw [List.map_cons]
        refine List.pairwise_cons.mpr ⟨?_, ih h.2⟩
        intro q hq
        rcases insertAsk_price_mem o rest q hq with rfl | hq'
        · exact lt_of_le_of_ne (le_of_not_lt h2) h1
        · exact h.1 q hq'

theorem FOLevel.remove_order_price (l : FOLevel) (oid : Nat) (l' : FOLevel)
    (h : l.remove_order oid = some l') : l'.price = l.price := by
  unfold FOLevel.remove_order at h
  cases hrf : FOLevel.removeFirst l.orders oid with
  | none => rw [hrf] at h; exact absurd h (by simp)
  | some pr =>
    rw [hrf] at h
    obtain ⟨o', rest'⟩ := pr
    injection h with h'
    rw [← h']

theorem removeFromSide_prices_sublist (ls : List FOLevel) (oid : Nat) (p : ℚ)
    (ls' : List FOLevel) (rem : Bool)
    (h : FastOrderbook.removeFromSide ls oid p = some (ls', rem)) :
    List.Sublist (ls'.map FOLevel.price) (ls.map FOLevel.price) := by
  induction ls generalizing ls' rem with
  | nil => exact absurd h (by simp [FastOrderbook.removeFromSide])
  | cons l rest ih =>
    unfold FastOrderbook.removeFromSide at h
    by_cases h1 : l.price = p
    · rw [if_pos h1] at h
      cases hro : l.remove_order oid with
      | none => rw [hro] at h; exact absurd h (by simp)
      | some lvl' =>
        rw [hro] at h
        dsimp only at h
        by_cases he : lvl'.orders = []
        · rw [if_pos he] at h
          injection h with h'
          injection h' with ha hb
          rw [← ha]
          exact List.sublist_cons_self _ _
        · rw [if_neg he] at h
          injection h with h'
          injection h' with ha hb
          rw [← ha]
          rw [List.map_cons, List.map_cons,
            FOLevel.remove_order_price l oid lvl' hro]
    · rw [if_neg h1] at h
      cases hrec : FastOrderbook.removeFromSide rest oid p with
      | none => rw [hrec] at h; exact absurd h (by simp)
      | some pr =>
        rw [hrec] at h
        dsimp only at h
        obtain ⟨rest', rem'⟩ := pr
        injection h with h'
        injection h' with ha hb
        rw [← ha]
        exact List.Sublist.cons₂ _ (ih rest' rem' hrec)

theorem FastOrderbook.fast_add_order_sorted (b : FastOrderbook) (o : FOrder)
    (isBuy : Bool) (h : SortedFast b) : SortedFast (b.add_order o isBuy).1 := by
  unfold FastOrderbook.add_order
  cases isBuy with
  | true =>
    dsimp only
    exact ⟨insertBid_sorted o b.bidLevels h.1, h.2⟩
  | false =>
    dsimp only
    exact ⟨h.1, insertAsk_sorted o b.askLevels h.2⟩

theorem FastOrderbook.fast_remove_order_sorted (b : FastOrderbook) (oid : Nat)
    (price : ℚ) (isBuy : Bool) (h : SortedFast b) :
    SortedFast (b.remove_order oid price isBuy).1 := by
  unfold FastOrderbook.remove_order
  cases isBuy with
  | true =>
    dsimp only
    cases hr : FastOrderbook.removeFromSide b.bidLevels oid price with
    | none => exact h
    | some pr =>
      obtain ⟨ls', rem⟩ := pr
      exact ⟨List.Pairwise.sublist
        (removeFromSide_prices_sublist b.bidLevels oid price ls' rem hr) h.1, h.2⟩
  | false =>
    dsimp only
    cases hr : FastOrderbook.removeFromSide b.askLevels oid price with
    | none => exact h
    | some pr =>
      obtain ⟨ls', rem⟩ := pr
      exact ⟨h.1, List.Pairwise.sublist
        (removeFromSide_prices_sublist b.askLevels oid price ls' rem hr) h.2⟩

theorem applyFastOp_sorted (b : FastOrderbook) (op : FastOp) (h : SortedFast b) :
    SortedFast (applyFastOp b op) := by
  cases op with
  | add o isBuy => exact FastOrderbook.fast_add_order_sorted b o isBuy h
  | remove oid price isBuy => exact FastOrderbook.fast_remove_order_sorted b oid price isBuy h
  | clear => exact ⟨List.Pairwise.nil, List.Pairwise.nil⟩

theorem runFast_sorted (b : FastOrderbook) (ops : List FastOp) (h : SortedFast b) :
    SortedFast (runFast b ops) := by
  induction ops generalizing b with
  | nil => exact h
  | cons op rest ih => exact ih (applyFastOp b op) (applyFastOp_sorted b op h)

/-- Claim C4, as stated, is false for `FastOrderbook`: its `get_snapshot`
is a plain `take(depth)`, so depth 0 returns no levels at all even when
the book holds a level (here one bid). -/
theorem claim_C4_cex :
    (((FastOrderbook.new 0 "BTC").add_order oFast true).1).bidLevels.length = 1 ∧
    ((((FastOrderbook.new 0 "BTC").add_order oFast true).1).get_snapshot 0).1 = [] ∧
    ((((FastOrderbook.new 0 "BTC").add_order oFast true).1).get_snapshot 0).1.length
      ≠ (((FastOrderbook.new 0 "BTC").add_order oFast true).1).bidLevels.length := by
  refine ⟨by decide, rfl, by decide⟩

/-- Claim C4, amended: every reachable book (fresh and closed under the
operations) has strictly sorted sides; for every such state and depth
d > 0 both `get_snapshot`s return at most d (price, aggregate-size) levels
per side, exactly the top-d prefix of the full per-level listing, with bid
prices strictly descending and ask prices strictly ascending; at depth 0
`Orderbook::get_snapshot` returns every level of both sides, while
`FastOrderbook::get_snapshot` returns no levels. -/
theorem claim_C4 :
    (∀ (marketId : Nat) (symbol : String), SortedBook (Orderbook.new marketId symbol)) ∧
    (∀ (marketId : Nat) (symbol : String) (mpl mls mto : Nat),
      SortedBook (Orderbook.with_limits marketId symbol mpl mls mto)) ∧
    (∀ (marketId : Nat) (symbol : String), SortedFast (FastOrderbook.new marketId symbol)) ∧
    (∀ (b0 : Orderbook) (ops : List BookOp), SortedBook b0 → SortedBook (runBook b0 ops)) ∧
    (∀ (fb0 : FastOrderbook) (ops : List FastOp), SortedFast fb0 →
      SortedFast (runFast fb0 ops)) ∧
    (∀ (b : Orderbook) (d : Nat), 0 < d →
      (b.get_snapshot d).1 = (b.get_snapshot 0).1.take d ∧
      (b.get_snapshot d).2 = (b.get_snapshot 0).2.take d ∧
      (b.get_snapshot d).1.length ≤ d ∧ (b.get_snapshot d).2.length ≤ d) ∧
    (∀ b : Orderbook,
      (b.get_snapshot 0).1.length = b.bids.length ∧
      (b.get_snapshot 0).2.length = b.asks.length) ∧
    (∀ b : Orderbook, SortedBook b →
      ((b.get_snapshot 0).1.map Prod.fst).Pairwise (fun a c => c < a) ∧
      ((b.get_snapshot 0).2.map Prod.fst).Pairwise (fun a c => a < c)) ∧
    (∀ (fb : FastOrderbook) (d : Nat),
      (fb.get_snapshot d).1 = (fb.bidLevels.map (fun l => (l.price, l.totalSize))).take d ∧
      (fb.get_snapshot d).2 = (fb.askLevels.map (fun l => (l.price, l.totalSize))).take d ∧
      (fb.get_snapshot d).1.length ≤ d ∧ (fb.get_snapshot d).2.length ≤ d) ∧
    (∀ fb : FastOrderbook, SortedFast fb → ∀ d : Nat,
      ((fb.get_snapshot d).1.map Prod.fst).Pairwise (fun a c => c < a) ∧
      ((fb.get_snapshot d).2.map Prod.fst).Pairwise (fun a c => a < c)) ∧
    (∀ fb : FastOrderbook, fb.get_snapshot 0 = ([], [])) := by
  refine ⟨?_, ?_, ?_, runBook_sorted, runFast_sorted, ?_, ?_, ?_, ?_, ?_, ?_⟩
  · exact fun _ _ => ⟨List.Pairwise.nil, List.Pairwise.nil⟩
  · exact fun _ _ _ _ _ => ⟨List.Pairwise.nil, List.Pairwise.nil⟩
  · exact fun _ _ => ⟨List.Pairwise.nil, List.Pairwise.nil⟩
  · intro b d hd
    have hne : ¬ d = 0 := by omega
    refine ⟨?_, ?_, ?_, ?_⟩
    · simp [Orderbook.get_snapshot, hne, List.map_take]
    · simp [Orderbook.get_snapshot, hne, List.map_take]
    · simp only [Orderbook.get_snapshot, if_neg hne]
      rw [List.length_map]
      exact List.length_take_le d b.bids
    · simp only [Orderbook.get_snapshot, if_neg hne]
      rw [List.length_map]
      exact List.length_take_le d b.asks
  · intro b
    constructor
    · simp [Orderbook.get_snapshot]
    · simp [Orderbook.get_snapshot]
  · intro b hb
    constructor
    · simp only [Orderbook.get_snapshot, if_pos rfl]
      rw [List.map_map, List.pairwise_map]
      exact hb.1.imp (fun hlt => by simpa using hlt)
    · simp only [Orderbook.get_snapshot, if_pos rfl]
      rw [List.map_map, List.pairwise_map]
      exact hb.2.imp (fun hlt => by simpa using hlt)
  · intro fb d
    refine ⟨?_, ?_, ?_, ?_⟩
    · simp [FastOrderbook.get_snapshot, List.map_take]
    · simp [FastOrderbook.get_snapshot, List.map_take]
    · simp only [FastOrderbook.get_snapshot]
      rw [List.length_map]
      exact List.length_take_le d fb.bidLevels
    · simp only [FastOrderbook.get_snapshot]
      rw [List.length_map]
      exact List.length_take_le d fb.askLevels
  · intro fb hfb d
    unfold FastOrderbook.get_snapshot
    constructor
    · rw [List.map_map, List.map_take]
      exact List.Pairwise.sublist (List.take_sublist _ _) hfb.1
    · rw [List.map_map, List.map_take]
      exact List.Pairwise.sublist (List.take_sublist _ _) hfb.2
  · exact fun fb => rfl

/-- Witness for `claim_C4`: the fresh Orderbook is sorted, and at depth 1
its snapshot is the top-1 prefix of the full snapshot; the sorted-state
conjuncts are applied at a concrete one-op trace. -/
theorem claim_C4_witness :
    (0:Nat) < 1 ∧ SortedBook (Orderbook.new 0 "BTC") ∧
    ((Orderbook.new 0 "BTC").get_snapshot 1).1
      = ((Orderbook.new 0 "BTC").get_snapshot 0).1.take 1 ∧
    SortedBook (runBook (Orderbook.new 0 "BTC") [BookOp.add oBuy]) ∧
    SortedFast (runFast (FastOrderbook.new 0 "BTC") [FastOp.add oFast true]) ∧
    (((Orderbook.new 0 "BTC").get_snapshot 0).1.map Prod.fst).Pairwise
      (fun a c => c < a) :=
  ⟨Nat.zero_lt_one, claim_C4.1 0 "BTC",
   (claim_C4.2.2.2.2.2.1 (Orderbook.new 0 "BTC") 1 Nat.zero_lt_one).1,
   claim_C4.2.2.2.1 (Orderbook.new 0 "BTC") [BookOp.add oBuy] (claim_C4.1 0 "BTC"),
   claim_C4.2.2.2.2.1 (FastOrderbook.new 0 "BTC") [FastOp.add oFast true]
     (claim_C4.2.2.1 0 "BTC"),
   (claim_C4.2.2.2.2.2.2.2.1 (Orderbook.new 0 "BTC") (claim_C4.1 0 "BTC")).1⟩

end HpNodeStream
